import Mathlib

/-!
# LArPandora analyzer modules: shallow embedding

Embedding of
* `larpandora/LArPandoraAnalysis/ConsolidatedPFParticleAnalysisTemplate_module.cc`
* `trunk/PhotonPropagation/PMTResponseAnalyzer.cxx`

Conventions: `std::vector` is a `List` (`push_back x` is `++ [x]`), `std::map` is an association
list kept in strictly ascending key order, a thrown exception is `Except.error`, `size_t` and
loop indices are `Nat` (collections are far below `2^32` elements, no index arithmetic wraps),
`Int_t` counters are `Int` (counts are far below `2^31`). The values of a
`pandora::PropertiesMap` are never read and are kept as rationals; the `double`s of the photon
analyzer are `Float`, the IEEE 754 binary64 numbers.
-/

namespace lar_pandora

/-! ## Framework data -/

/-- The exceptions that the module can raise: the four `cet::exception`s thrown by the module
itself, and `std::out_of_range` raised by a checked `at` access. -/
inductive Exception where
  | repeatIDs
  | metadataAppearsTwice
  | multipleNeutrinos
  | invalidCollection
  | tracksAndShowers (nTracks nShowers self : Nat)
  | outOfRange
  deriving DecidableEq, Repr

/-- The part of `recob::PFParticle` read by the module: `Self()`, `IsPrimary()`, `Daughters()`. -/
structure PFParticle where
  Self : Nat
  IsPrimary : Bool
  Daughters : List Nat
  deriving DecidableEq, Repr

/-- The class `recob::Track`; the module never looks inside a track. -/
structure Track where
  ID : Nat
  deriving DecidableEq, Repr

/-- The class `recob::Shower`; the module never looks inside a shower. -/
structure Shower where
  ID : Nat
  deriving DecidableEq, Repr

/-- The pointer `art::Ptr<T>` into a collection: the index `key()` and the element it refers to. -/
structure Ptr (α : Type) where
  key : Nat
  obj : α
  deriving DecidableEq, Repr

/-- The map `pandora::PropertiesMap`, from property name to value. -/
abbrev PropertiesMap := List (String × Rat)

/-- The call `propertiesMap.find(property)`: the entry found, `none` for `end()`. -/
def PropertiesMap.find (m : PropertiesMap) (property : String) : Option (String × Rat) :=
  List.find? (fun e => e.1 == property) m

/-- The class `larpandoraobj::PFParticleMetadata`. -/
structure PFParticleMetadata where
  GetPropertiesMap : PropertiesMap
  deriving DecidableEq, Repr

/-! ## `std::map` with `size_t` keys -/

/-- A `std::map<size_t, V>`: its entries in iteration order. -/
abbrev StdMap (V : Type) := List (Nat × V)

namespace StdMap

variable {V : Type}

/-- The invariant of `std::map`: keys strictly ascending in iteration order. -/
def WF (m : StdMap V) : Prop := List.Pairwise (fun a b => a.1 < b.1) m

/-- The call `m.find(k)`: the mapped value, `none` for `end()`. -/
def find : StdMap V → Nat → Option V
  | [], _ => none
  | (k', v) :: rest, k => if k' = k then some v else find rest k

/-- The call `m.at(k)`: throws `std::out_of_range` when the key is absent. -/
def «at» (m : StdMap V) (k : Nat) : Except Exception V :=
  match m.find k with
  | some v => .ok v
  | none => .error .outOfRange

/-- The call `m.insert(value_type(k, v))`: the map afterwards and the `.second` of the result,
which is `false` (and the map unchanged) when the key is already present. -/
def insert : StdMap V → Nat → V → StdMap V × Bool
  | [], k, v => ([(k, v)], true)
  | (k', v') :: rest, k, v =>
    if k < k' then ((k, v) :: (k', v') :: rest, true)
    else if k = k' then ((k', v') :: rest, false)
    else ((k', v') :: (insert rest k v).1, (insert rest k v).2)

end StdMap

/-! ## The module's types -/

abbrev PFParticleHandle := List PFParticle
abbrev PFParticleIdMap := StdMap (Ptr PFParticle)
abbrev PFParticleMetadataVector := List (Ptr PFParticleMetadata)
/-- The map `std::map<art::Ptr<recob::PFParticle>, PFParticleMetadataVector>`; pointers into one
collection are ordered by `key()`. -/
abbrev PFParticleMetadataMap := StdMap PFParticleMetadataVector
abbrev PFParticleVector := List (Ptr PFParticle)
abbrev TrackVector := List (Ptr Track)
abbrev ShowerVector := List (Ptr Shower)

/-- The query object `art::FindManyP<T>` built over the PFParticle handle: one vector of
associated objects per element of the handle's collection. -/
structure FindManyP (α : Type) where
  bColl : List (List (Ptr α))

/-- The call `assoc.at(i)`: the objects associated with element `i`; out of range throws. -/
def FindManyP.«at» {α : Type} (assoc : FindManyP α) (i : Nat) : Except Exception (List (Ptr α)) :=
  match assoc.bColl.get? i with
  | some v => .ok v
  | none => .error .outOfRange

/-! ## `GetPFParticleIdMap` -/

/-- The loop of `GetPFParticleIdMap` from index `i` on, over the remaining elements. -/
def GetPFParticleIdMap.loop : Nat → List PFParticle → PFParticleIdMap →
    Except Exception PFParticleIdMap
  | _, [], pfParticleMap => .ok pfParticleMap
  | i, particle :: rest, pfParticleMap =>
    let pParticle : Ptr PFParticle := ⟨i, particle⟩
    if !(pfParticleMap.insert pParticle.obj.Self pParticle).2 then
      .error .repeatIDs
    else
      GetPFParticleIdMap.loop (i + 1) rest (pfParticleMap.insert pParticle.obj.Self pParticle).1

/-- The method `GetPFParticleIdMap`: the map after the call, or the exception thrown. -/
def GetPFParticleIdMap (pfParticleHandle : PFParticleHandle) (pfParticleMap : PFParticleIdMap) :
    Except Exception PFParticleIdMap :=
  GetPFParticleIdMap.loop 0 pfParticleHandle pfParticleMap

/-- The entries that the loop of `GetPFParticleIdMap` adds for the elements `rest` of the
collection when the first of them has index `i`. -/
def idEntries (i : Nat) (rest : List PFParticle) : List (Nat × Ptr PFParticle) :=
  (List.enumFrom i rest).map (fun ip => (ip.2.Self, Ptr.mk ip.1 ip.2))

/-! ## `GetPFParticleMetadataMap` -/

/-- The loop of `GetPFParticleMetadataMap` from index `i` on. -/
def GetPFParticleMetadataMap.loop (pfPartToMetadataAssoc : FindManyP PFParticleMetadata) :
    Nat → List PFParticle → PFParticleMetadataMap → Except Exception PFParticleMetadataMap
  | _, [], pfParticleMetadataMap => .ok pfParticleMetadataMap
  | i, particle :: rest, pfParticleMetadataMap =>
    match pfPartToMetadataAssoc.at i with
    | .error e => .error e
    | .ok pfParticleMetadataList =>
      if !pfParticleMetadataList.isEmpty then
        let pParticle : Ptr PFParticle := ⟨i, particle⟩
        if !(pfParticleMetadataMap.insert pParticle.key pfParticleMetadataList).2 then
          .error .metadataAppearsTwice
        else
          GetPFParticleMetadataMap.loop pfPartToMetadataAssoc (i + 1) rest
            (pfParticleMetadataMap.insert pParticle.key pfParticleMetadataList).1
      else
        GetPFParticleMetadataMap.loop pfPartToMetadataAssoc (i + 1) rest pfParticleMetadataMap

/-- The method `GetPFParticleMetadataMap`; the association query is the one the framework
builds from the event. -/
def GetPFParticleMetadataMap (pfPartToMetadataAssoc : FindManyP PFParticleMetadata)
    (pfParticleHandle : PFParticleHandle) (pfParticleMetadataMap : PFParticleMetadataMap) :
    Except Exception PFParticleMetadataMap :=
  GetPFParticleMetadataMap.loop pfPartToMetadataAssoc 0 pfParticleHandle pfParticleMetadataMap

/-! ## `IsTarget` -/

/-- The loop of `IsTarget` over the metadata vector. -/
def IsTarget.loop (property : String) : PFParticleMetadataVector → Bool
  | [] => false
  | pfParticleMetadata :: rest =>
    let pfParticlePropertiesMap := pfParticleMetadata.obj.GetPropertiesMap
    let iter := pfParticlePropertiesMap.find property
    if iter.isSome then true else IsTarget.loop property rest

/-- The method `IsTarget`. -/
def IsTarget (m_testBeamMode : Bool) (_pParticle : Ptr PFParticle)
    (pfParticleMetadataVector : PFParticleMetadataVector) : Bool :=
  let property := if m_testBeamMode then "IsTestBeam" else "IsNeutrino"
  if !pfParticleMetadataVector.isEmpty then
    IsTarget.loop property pfParticleMetadataVector
  else
    false

/-! ## `GetFinalStatePFParticleVectors` -/

/-- The inner loop over `pParticle->Daughters()`: `nuParticles` afterwards. -/
def GetFinalStatePFParticleVectors.daughters (pfParticleMap : PFParticleIdMap) :
    List Nat → PFParticleVector → Except Exception PFParticleVector
  | [], nuParticles => .ok nuParticles
  | daughterId :: rest, nuParticles =>
    if (pfParticleMap.find daughterId).isNone then
      .error .invalidCollection
    else
      match pfParticleMap.at daughterId with
      | .error e => .error e
      | .ok daughter =>
        GetFinalStatePFParticleVectors.daughters pfParticleMap rest (nuParticles ++ [daughter])

/-- The outer loop over the entries of the ID map still to visit. -/
def GetFinalStatePFParticleVectors.loop (m_testBeamMode : Bool) (pfParticleMap : PFParticleIdMap)
    (pfParticleMetadataMap : PFParticleMetadataMap) :
    List (Nat × Ptr PFParticle) → PFParticleVector → PFParticleVector →
    Except Exception (PFParticleVector × PFParticleVector)
  | [], crParticles, nuParticles => .ok (crParticles, nuParticles)
  | it :: rest, crParticles, nuParticles =>
    let pParticle := it.2
    if !pParticle.obj.IsPrimary then
      GetFinalStatePFParticleVectors.loop m_testBeamMode pfParticleMap pfParticleMetadataMap
        rest crParticles nuParticles
    else
      match pfParticleMetadataMap.at pParticle.key with
      | .error e => .error e
      | .ok metadata =>
        let isTarget := IsTarget m_testBeamMode pParticle metadata
        if !isTarget then
          GetFinalStatePFParticleVectors.loop m_testBeamMode pfParticleMap pfParticleMetadataMap
            rest (crParticles ++ [pParticle]) nuParticles
        else if !nuParticles.isEmpty && !m_testBeamMode then
          .error .multipleNeutrinos
        else
          match GetFinalStatePFParticleVectors.daughters pfParticleMap pParticle.obj.Daughters
              nuParticles with
          | .error e => .error e
          | .ok nuParticles' =>
            GetFinalStatePFParticleVectors.loop m_testBeamMode pfParticleMap
              pfParticleMetadataMap rest crParticles nuParticles'

/-- The method `GetFinalStatePFParticleVectors`: `(crParticles, nuParticles)` after the call, or
the exception thrown. -/
def GetFinalStatePFParticleVectors (m_testBeamMode : Bool) (pfParticleMap : PFParticleIdMap)
    (pfParticleMetadataMap : PFParticleMetadataMap)
    (crParticles nuParticles : PFParticleVector) :
    Except Exception (PFParticleVector × PFParticleVector) :=
  GetFinalStatePFParticleVectors.loop m_testBeamMode pfParticleMap pfParticleMetadataMap
    pfParticleMap crParticles nuParticles

/-! ## `CollectTracksAndShowers` -/

/-- The loop of `CollectTracksAndShowers` over the input particles. The call `front()` is made
on a vector of size one only; `push_back(v.front())` appends the first element of `v`. -/
def CollectTracksAndShowers.loop (pfPartToTrackAssoc : FindManyP Track)
    (pfPartToShowerAssoc : FindManyP Shower) :
    PFParticleVector → TrackVector → ShowerVector → Except Exception (TrackVector × ShowerVector)
  | [], tracks, showers => .ok (tracks, showers)
  | pParticle :: rest, tracks, showers =>
    match pfPartToTrackAssoc.at pParticle.key with
    | .error e => .error e
    | .ok associatedTracks =>
      match pfPartToShowerAssoc.at pParticle.key with
      | .error e => .error e
      | .ok associatedShowers =>
        let nTracks := associatedTracks.length
        let nShowers := associatedShowers.length
        if nTracks = 0 ∧ nShowers = 0 then
          CollectTracksAndShowers.loop pfPartToTrackAssoc pfPartToShowerAssoc rest tracks showers
        else if nTracks = 1 ∧ nShowers = 0 then
          CollectTracksAndShowers.loop pfPartToTrackAssoc pfPartToShowerAssoc rest
            (tracks ++ associatedTracks.head?.toList) showers
        else if nTracks = 0 ∧ nShowers = 1 then
          CollectTracksAndShowers.loop pfPartToTrackAssoc pfPartToShowerAssoc rest
            tracks (showers ++ associatedShowers.head?.toList)
        else
          .error (.tracksAndShowers nTracks nShowers pParticle.obj.Self)

/-- The method `CollectTracksAndShowers`; the two association queries are the ones the framework
builds from the handle and the event. -/
def CollectTracksAndShowers (particles : PFParticleVector)
    (pfPartToTrackAssoc : FindManyP Track) (pfPartToShowerAssoc : FindManyP Shower)
    (tracks : TrackVector) (showers : ShowerVector) :
    Except Exception (TrackVector × ShowerVector) :=
  CollectTracksAndShowers.loop pfPartToTrackAssoc pfPartToShowerAssoc particles tracks showers

/-! ## Vocabulary of the statements -/

/-- The entry of the ID map is a primary particle that has a metadata entry on which `IsTarget`
is true: "a primary particle identified as the target". -/
def isTargetPrimary (m_testBeamMode : Bool) (pfParticleMetadataMap : PFParticleMetadataMap)
    (it : Nat × Ptr PFParticle) : Bool :=
  it.2.obj.IsPrimary &&
    match pfParticleMetadataMap.find it.2.key with
    | some metadata => IsTarget m_testBeamMode it.2 metadata
    | none => false

/-- The entry of the ID map is a primary particle that has a metadata entry on which `IsTarget`
is false: "a primary particle that is not the target". -/
def isCosmicPrimary (m_testBeamMode : Bool) (pfParticleMetadataMap : PFParticleMetadataMap)
    (it : Nat × Ptr PFParticle) : Bool :=
  it.2.obj.IsPrimary &&
    match pfParticleMetadataMap.find it.2.key with
    | some metadata => !IsTarget m_testBeamMode it.2 metadata
    | none => false

/-- The associated tracks of a particle, empty when its key is outside the association. -/
def tracksOf (pfPartToTrackAssoc : FindManyP Track) (pParticle : Ptr PFParticle) :
    List (Ptr Track) :=
  (pfPartToTrackAssoc.bColl.get? pParticle.key).getD []

/-- The associated showers of a particle, empty when its key is outside the association. -/
def showersOf (pfPartToShowerAssoc : FindManyP Shower) (pParticle : Ptr PFParticle) :
    List (Ptr Shower) :=
  (pfPartToShowerAssoc.bColl.get? pParticle.key).getD []

/-- The single associated track of each particle that has exactly one associated track and no
associated shower, in the order of the particles. -/
def singleTracks (pfPartToTrackAssoc : FindManyP Track) (pfPartToShowerAssoc : FindManyP Shower)
    (particles : PFParticleVector) : TrackVector :=
  particles.filterMap (fun p =>
    if (tracksOf pfPartToTrackAssoc p).length = 1 ∧ (showersOf pfPartToShowerAssoc p).length = 0
    then (tracksOf pfPartToTrackAssoc p).head? else none)

/-- The single associated shower of each particle that has exactly one associated shower and no
associated track, in the order of the particles. -/
def singleShowers (pfPartToTrackAssoc : FindManyP Track) (pfPartToShowerAssoc : FindManyP Shower)
    (particles : PFParticleVector) : ShowerVector :=
  particles.filterMap (fun p =>
    if (tracksOf pfPartToTrackAssoc p).length = 0 ∧ (showersOf pfPartToShowerAssoc p).length = 1
    then (showersOf pfPartToShowerAssoc p).head? else none)

/-! ## Sample events -/

/-- Metadata of a particle that Pandora tagged as the neutrino. -/
def nuMetadata : PFParticleMetadataVector := [⟨0, ⟨[("IsNeutrino", 1)]⟩⟩]

/-- Metadata of a particle that Pandora tagged as a clear cosmic ray. -/
def crMetadata : PFParticleMetadataVector := [⟨1, ⟨[("IsClearCosmic", 1)]⟩⟩]

/-- A collection of four particles: a primary with the daughters `12` and `13`, a second
primary, and the two daughters. -/
def sampleHandle : PFParticleHandle :=
  [⟨10, true, [12, 13]⟩, ⟨11, true, []⟩, ⟨12, false, []⟩, ⟨13, false, []⟩]

/-- The ID map of `sampleHandle`. -/
def sampleIdMap : PFParticleIdMap :=
  [(10, ⟨0, ⟨10, true, [12, 13]⟩⟩), (11, ⟨1, ⟨11, true, []⟩⟩), (12, ⟨2, ⟨12, false, []⟩⟩),
    (13, ⟨3, ⟨13, false, []⟩⟩)]

/-- A metadata map for `sampleHandle` in which the first primary is the neutrino and the second
one a cosmic ray. -/
def sampleMetadataMap : PFParticleMetadataMap := [(0, nuMetadata), (1, crMetadata)]

/-- The metadata map of `sampleHandle` when only the first particle has associated metadata. -/
def sparseMetadataMap : PFParticleMetadataMap := [(0, nuMetadata)]

/-- The final-state particles of `sampleHandle`: the two daughters of its neutrino. -/
def sampleFinalStates : PFParticleVector := [⟨2, ⟨12, false, []⟩⟩, ⟨3, ⟨13, false, []⟩⟩]

/-- A track association for `sampleHandle`: one track for the particle at index `2`. -/
def sampleTrackAssoc : FindManyP Track := ⟨[[], [], [⟨0, ⟨7⟩⟩], []]⟩

/-- A shower association for `sampleHandle`: one shower for the particle at index `3`. -/
def sampleShowerAssoc : FindManyP Shower := ⟨[[], [], [], [⟨0, ⟨8⟩⟩]]⟩

/-- An ID map with two primaries, the daughter list of the first of which names the ID `99`
that is not in the map. -/
def danglingIdMap : PFParticleIdMap :=
  [(10, ⟨0, ⟨10, true, [99]⟩⟩), (11, ⟨1, ⟨11, true, []⟩⟩)]

/-- An ID map with two primaries, the first with one daughter, and that daughter. -/
def twoPrimariesIdMap : PFParticleIdMap :=
  [(10, ⟨0, ⟨10, true, [12]⟩⟩), (11, ⟨1, ⟨11, true, []⟩⟩), (12, ⟨2, ⟨12, false, []⟩⟩)]

/-- A metadata map that tags the particles at index `0` and `1` as neutrinos. -/
def twoNeutrinosMetadataMap : PFParticleMetadataMap := [(0, nuMetadata), (1, nuMetadata)]

end lar_pandora

namespace phot

/-! ## `PMTResponseAnalyzer`

The real quantities of this module are C++ `double`s: they are `Float`, the IEEE 754 binary64
numbers, with their own division (a division by zero gives an infinity, not zero) and their own
comparisons (every comparison with a NaN is false). The members `fWavelength` and `fTime` are
declared in `PhotonPropagation/PMTResponseAnalyzer.h`, which is not among the sources; their
branches are booked with the descriptor `/F`, a 32-bit float, so an assignment to them converts
the `double`. That conversion is the parameter `toFloat_t` of the definitions below: the value
that the member holds after the assignment, seen as a `double` again (widening is exact). -/

/-- One photon of a `sim::PMTHit`: the time components of its momentum (its energy) and of its
position (its arrival time). -/
structure OnePhoton where
  MomentumT : Float
  PositionT : Float
  deriving Repr

/-- The photons that reached one PMT, `sim::PMTHit`. -/
abbrev PMTHit := List OnePhoton

/-- The map `sim::PMTHitCollection` from PMT id to the hit, in iteration order. -/
abbrev PMTHitCollection := List (Int × PMTHit)

/-- A row of the trees `AllPhotons` and `DetectedPhotons`. -/
structure PhotonRow where
  EventID : Int
  Wavelength : Float
  PMTID : Int
  Time : Float
  deriving Repr

/-- A row of the tree `PMTs`. -/
structure PMTRow where
  EventID : Int
  PMTID : Int
  CountAll : Int
  CountDetected : Int
  deriving DecidableEq, Repr

/-- A row of the tree `PMTEvents`. -/
structure EventRow where
  EventID : Int
  CountAll : Int
  CountDetected : Int
  deriving DecidableEq, Repr

/-- The members of `PMTResponseAnalyzer`: configuration, branch variables, the rows filled into
each tree so far, and the number of values drawn from the random engine so far. -/
structure PMTResponseAnalyzer where
  fVerbosity : Int
  fMakeAllPhotonsTree : Bool
  fMakeDetectedPhotonsTree : Bool
  fMakePMTHitsTree : Bool
  fMakeEventsTree : Bool
  fQE : Float
  fWavelengthCutLow : Float
  fWavelengthCutHigh : Float
  fEventID : Int
  fWavelength : Float
  fPMTID : Int
  fTime : Float
  fCountPMTAll : Int
  fCountPMTDetected : Int
  fCountEventAll : Int
  fCountEventDetected : Int
  fThePhotonTreeAll : List PhotonRow
  fThePhotonTreeDetected : List PhotonRow
  fThePMTTree : List PMTRow
  fTheEventTree : List EventRow
  drawn : Nat

namespace PMTResponseAnalyzer

/-- The row that `Fill()` writes into a per-photon tree from the branch variables. -/
def photonRow (s : PMTResponseAnalyzer) : PhotonRow :=
  ⟨s.fEventID, s.fWavelength, s.fPMTID, s.fTime⟩

/-- The row that `fThePMTTree->Fill()` writes. -/
def pmtRow (s : PMTResponseAnalyzer) : PMTRow :=
  ⟨s.fEventID, s.fPMTID, s.fCountPMTAll, s.fCountPMTDetected⟩

/-- The row that `fTheEventTree->Fill()` writes. -/
def eventRow (s : PMTResponseAnalyzer) : EventRow :=
  ⟨s.fEventID, s.fCountEventAll, s.fCountEventDetected⟩

/-- The condition of the `if` in the per-photon loops, for the value `draw` returned by
`flat.fire(1.0)`: `(draw <= fQE) && (fWavelength > fWavelengthCutLow) &&
(fWavelength < fWavelengthCutHigh)`, on the member `fWavelength` as stored. -/
def detects (s : PMTResponseAnalyzer) (draw : Float) : Bool :=
  decide (draw ≤ s.fQE) && decide (s.fWavelength > s.fWavelengthCutLow) &&
    decide (s.fWavelength < s.fWavelengthCutHigh)

/-- The per-photon loop taken when `fVerbosity > 3`; `engine n` is the value of the `n`-th
draw of the random engine. Screen output is not modelled. -/
def photonsVerbose (toFloat_t : Float → Float) (engine : Nat → Float) :
    List OnePhoton → PMTResponseAnalyzer → PMTResponseAnalyzer
  | [], s => s
  | it :: rest, s =>
    let s := { s with fWavelength := toFloat_t ((2.0 * 3.142) * 0.000197 / it.MomentumT) }
    let s := { s with fTime := toFloat_t it.PositionT }
    let s := { s with fCountPMTAll := s.fCountPMTAll + 1 }
    let s := if s.fMakeAllPhotonsTree then
      { s with fThePhotonTreeAll := s.fThePhotonTreeAll ++ [s.photonRow] } else s
    let draw := engine s.drawn
    let s := { s with drawn := s.drawn + 1 }
    if s.detects draw then
      let s := if s.fMakeDetectedPhotonsTree then
        { s with fThePhotonTreeDetected := s.fThePhotonTreeDetected ++ [s.photonRow] } else s
      let s := { s with fCountPMTDetected := s.fCountPMTDetected + 1 }
      photonsVerbose toFloat_t engine rest s
    else
      photonsVerbose toFloat_t engine rest s

/-- The per-photon loop taken when `fVerbosity <= 3`. -/
def photonsQuiet (toFloat_t : Float → Float) (engine : Nat → Float) :
    List OnePhoton → PMTResponseAnalyzer → PMTResponseAnalyzer
  | [], s => s
  | it :: rest, s =>
    let s := { s with fWavelength := toFloat_t ((2.0 * 3.142) * 0.000197 / it.MomentumT) }
    let s := { s with fCountPMTAll := s.fCountPMTAll + 1 }
    let s := if s.fMakeAllPhotonsTree then
      { s with fThePhotonTreeAll := s.fThePhotonTreeAll ++ [s.photonRow] } else s
    let draw := engine s.drawn
    let s := { s with drawn := s.drawn + 1 }
    if s.detects draw then
      let s := if s.fMakeDetectedPhotonsTree then
        { s with fThePhotonTreeDetected := s.fThePhotonTreeDetected ++ [s.photonRow] } else s
      let s := { s with fCountPMTDetected := s.fCountPMTDetected + 1 }
      photonsQuiet toFloat_t engine rest s
    else
      photonsQuiet toFloat_t engine rest s

/-- The body of the loop over the hit collection, for the entry `(first, second)`. -/
def hit (toFloat_t : Float → Float) (engine : Nat → Float) (entry : Int × PMTHit)
    (s : PMTResponseAnalyzer) : PMTResponseAnalyzer :=
  let s := { s with fCountPMTAll := 0 }
  let s := { s with fCountPMTDetected := 0 }
  let s := { s with fPMTID := entry.1 }
  let TheHit := entry.2
  let s := if s.fVerbosity > 3 then photonsVerbose toFloat_t engine TheHit s
    else photonsQuiet toFloat_t engine TheHit s
  let s := if s.fMakePMTHitsTree then { s with fThePMTTree := s.fThePMTTree ++ [s.pmtRow] } else s
  let s := { s with fCountEventAll := s.fCountEventAll + s.fCountPMTAll }
  { s with fCountEventDetected := s.fCountEventDetected + s.fCountPMTDetected }

/-- The loop `for (it = ...; it != stop; it++)` over the hit collection, iterators being
positions in iteration order (`begin()` is `0`, `end()` is the size). It gives `none` when the
fuel runs out or an iterator at or past `end()` is dereferenced. -/
def hits (toFloat_t : Float → Float) (engine : Nat → Float)
    (TheHitCollection : PMTHitCollection) (stop : Nat) :
    Nat → Nat → PMTResponseAnalyzer → Option PMTResponseAnalyzer
  | 0, _, _ => none
  | fuel + 1, it, s =>
    if it ≠ stop then
      match TheHitCollection.get? it with
      | none => none
      | some entry =>
        hits toFloat_t engine TheHitCollection stop fuel (it + 1) (hit toFloat_t engine entry s)
    else
      some s

/-- The method `analyze` for the event number `event` and the hit collection of the event.
The loop over the collection is the source's, `it = begin(); it != begin(); it++`. In the
branch for an empty collection the events tree is filled without a check of `fMakeEventsTree`;
the tree only exists when that flag is set, and the call on a missing tree gives `none`. -/
def analyze (toFloat_t : Float → Float) (engine : Nat → Float) (event : Int)
    (TheHitCollection : PMTHitCollection) (s : PMTResponseAnalyzer) :
    Option PMTResponseAnalyzer :=
  let s := { s with fEventID := event }
  let s := { s with fCountEventAll := 0 }
  let s := { s with fCountEventDetected := 0 }
  if TheHitCollection.length > 0 then
    let begin_ := 0
    match hits toFloat_t engine TheHitCollection begin_ (TheHitCollection.length + 1) begin_ s
    with
    | none => none
    | some s =>
      some (if s.fMakeEventsTree then
        { s with fTheEventTree := s.fTheEventTree ++ [s.eventRow] } else s)
  else
    if s.fMakeEventsTree then
      some { s with fTheEventTree := s.fTheEventTree ++ [s.eventRow] }
    else
      none

/-- The number of photons of a hit whose stored wavelength is in the sensitive range and whose
draw passes the sampling against the quantum efficiency, when the draws for the hit start at
draw number `start`: the count that the header of the file describes. -/
def detectedCount (toFloat_t : Float → Float) (engine : Nat → Float)
    (fQE fWavelengthCutLow fWavelengthCutHigh : Float) (start : Nat) (TheHit : PMTHit) : Nat :=
  List.countP (fun ip =>
      decide (engine ip.1 ≤ fQE) &&
      decide (toFloat_t ((2.0 * 3.142) * 0.000197 / ip.2.MomentumT) > fWavelengthCutLow) &&
      decide (toFloat_t ((2.0 * 3.142) * 0.000197 / ip.2.MomentumT) < fWavelengthCutHigh))
    (List.enumFrom start TheHit)

/-- An analyzer after `beginJob` with every tree enabled, quantum efficiency `0.5` and the
sensitive range from `100` to `500` nm. -/
def sampleAnalyzer : PMTResponseAnalyzer :=
  { fVerbosity := 0, fMakeAllPhotonsTree := true, fMakeDetectedPhotonsTree := true,
    fMakePMTHitsTree := true, fMakeEventsTree := true, fQE := 0.5,
    fWavelengthCutLow := 100.0, fWavelengthCutHigh := 500.0, fEventID := 0, fWavelength := 0.0,
    fPMTID := 0, fTime := 0.0, fCountPMTAll := 0, fCountPMTDetected := 0, fCountEventAll := 0,
    fCountEventDetected := 0, fThePhotonTreeAll := [], fThePhotonTreeDetected := [],
    fThePMTTree := [], fTheEventTree := [], drawn := 0 }

end PMTResponseAnalyzer

end phot

/-! # Properties -/

namespace lar_pandora

/-! ## `std::map` operations -/

namespace StdMap

variable {V : Type}

theorem find_isSome_iff (m : StdMap V) (k : Nat) :
    (m.find k).isSome = true ↔ k ∈ m.map Prod.fst := by
  induction m with
  | nil => simp [find]
  | cons e rest ih =>
    obtain ⟨k', v'⟩ := e
    by_cases hk : k' = k
    · simp [find, hk]
    · have hk' : ¬ k = k' := fun h => hk h.symm
      simp [find, hk, hk', ih]

theorem find_eq_none_iff (m : StdMap V) (k : Nat) :
    m.find k = none ↔ k ∉ m.map Prod.fst := by
  rw [← find_isSome_iff]
  cases m.find k <;> simp

theorem mem_keys_iff (m : StdMap V) (k : Nat) :
    k ∈ m.map Prod.fst ↔ ∃ v, m.find k = some v := by
  rw [← find_isSome_iff, Option.isSome_iff_exists]

theorem find_mem (m : StdMap V) (k : Nat) (v : V) (h : m.find k = some v) : (k, v) ∈ m := by
  induction m with
  | nil => simp [find] at h
  | cons e rest ih =>
    obtain ⟨k', v'⟩ := e
    by_cases hk : k' = k
    · simp [find, hk] at h
      simp [hk, h]
    · simp [find, hk] at h
      exact List.mem_cons_of_mem _ (ih h)

theorem find_of_mem (m : StdMap V) (hm : m.WF) (k : Nat) (v : V) (h : (k, v) ∈ m) :
    m.find k = some v := by
  induction m with
  | nil => simp at h
  | cons e rest ih =>
    obtain ⟨k', v'⟩ := e
    have hm' := List.pairwise_cons.mp hm
    rcases List.mem_cons.mp h with h | h
    · cases h
      simp [find]
    · have hlt : k' < k := hm'.1 (k, v) h
      have hne : ¬ k' = k := Nat.ne_of_lt hlt
      simp [find, hne]
      exact ih hm'.2 h

theorem insert_snd_iff (m : StdMap V) (hm : m.WF) (k : Nat) (v : V) :
    (m.insert k v).2 = true ↔ k ∉ m.map Prod.fst := by
  induction m with
  | nil => simp [insert]
  | cons e rest ih =>
    obtain ⟨k', v'⟩ := e
    have hm' := List.pairwise_cons.mp hm
    by_cases h1 : k < k'
    · simp only [insert, h1, if_true, List.map_cons, List.mem_cons, true_iff, not_or]
      refine ⟨Nat.ne_of_lt h1, ?_⟩
      intro hmem
      obtain ⟨e', he', hk⟩ := List.mem_map.mp hmem
      have := hm'.1 e' he'
      omega
    · by_cases h2 : k = k'
      · simp [insert, h2]
      · simp [insert, h1, h2, ih hm'.2]

theorem insert_fst_of_false (m : StdMap V) (k : Nat) (v : V) (h : (m.insert k v).2 = false) :
    (m.insert k v).1 = m := by
  induction m with
  | nil => simp [insert] at h
  | cons e rest ih =>
    obtain ⟨k', v'⟩ := e
    by_cases h1 : k < k'
    · simp [insert, h1] at h
    · by_cases h2 : k = k'
      · simp [insert, h2]
      · simp [insert, h1, h2] at h ⊢
        exact ih h

theorem insert_perm (m : StdMap V) (k : Nat) (v : V) (h : (m.insert k v).2 = true) :
    (m.insert k v).1.Perm ((k, v) :: m) := by
  induction m with
  | nil => simp [insert]
  | cons e rest ih =>
    obtain ⟨k', v'⟩ := e
    by_cases h1 : k < k'
    · simp [insert, h1]
    · by_cases h2 : k = k'
      · simp [insert, h2] at h
      · simp [insert, h1, h2] at h ⊢
        exact ((ih h).cons (k', v')).trans (List.Perm.swap _ _ _)

theorem insert_wf (m : StdMap V) (hm : m.WF) (k : Nat) (v : V) : WF (m.insert k v).1 := by
  induction m with
  | nil => simp [insert, WF]
  | cons e rest ih =>
    obtain ⟨k', v'⟩ := e
    have hm' := List.pairwise_cons.mp hm
    by_cases h1 : k < k'
    · simp only [insert, h1, if_true]
      refine List.pairwise_cons.mpr ⟨?_, hm⟩
      intro e' he'
      rcases List.mem_cons.mp he' with h | h
      · simpa [h] using h1
      · have := hm'.1 e' h
        show k < e'.1
        omega
    · by_cases h2 : k = k'
      · simpa [insert, h2] using hm
      · simp only [insert, h1, h2, if_false]
        refine List.pairwise_cons.mpr ⟨?_, ih hm'.2⟩
        intro e' he'
        show k' < e'.1
        by_cases hb : (insert rest k v).2 = true
        · rcases List.mem_cons.mp ((insert_perm rest k v hb).subset he') with h | h
          · subst h
            show k' < k
            omega
          · exact hm'.1 e' h
        · have hb' : (insert rest k v).2 = false := by simpa using hb
          rw [insert_fst_of_false rest k v hb'] at he'
          exact hm'.1 e' he'

theorem wf_nodup_keys (m : StdMap V) (hm : m.WF) : (m.map Prod.fst).Nodup := by
  unfold WF at hm
  rw [List.Nodup, List.pairwise_map]
  exact hm.imp (fun h => Nat.ne_of_lt h)

end StdMap

end lar_pandora

namespace lar_pandora

/-! ## `GetPFParticleIdMap` -/

theorem idEntries_keys (i : Nat) (rest : List PFParticle) :
    (idEntries i rest).map Prod.fst = rest.map PFParticle.Self := by
  induction rest generalizing i with
  | nil => rfl
  | cons p rest ih =>
    have := ih (i + 1)
    simp only [idEntries, List.enumFrom_cons, List.map_cons] at this ⊢
    rw [this]

theorem idEntries_mem (i : Nat) (rest : List PFParticle) (e : Nat × Ptr PFParticle)
    (h : e ∈ idEntries i rest) :
    ∃ j, ∃ hj : j < rest.length, e = ((rest.get ⟨j, hj⟩).Self, Ptr.mk (i + j) (rest.get ⟨j, hj⟩)) := by
  induction rest generalizing i with
  | nil => simp [idEntries] at h
  | cons p rest ih =>
    simp only [idEntries, List.enumFrom_cons, List.map_cons, List.mem_cons] at h
    rcases h with h | h
    · exact ⟨0, by simp, by simpa using h⟩
    · obtain ⟨j, hj, hje⟩ := ih (i + 1) h
      refine ⟨j + 1, by simpa using hj, ?_⟩
      rw [hje]
      simp [Nat.add_assoc, Nat.add_comm 1 j]

theorem idEntries_get (i : Nat) (rest : List PFParticle) (j : Nat) (hj : j < rest.length) :
    ((rest.get ⟨j, hj⟩).Self, Ptr.mk (i + j) (rest.get ⟨j, hj⟩)) ∈ idEntries i rest := by
  induction rest generalizing i j with
  | nil => simp at hj
  | cons p rest ih =>
    simp only [idEntries, List.enumFrom_cons, List.map_cons, List.mem_cons]
    cases j with
    | zero => left; simp
    | succ j =>
      right
      have := ih (i + 1) j (by simpa using hj)
      simpa [idEntries, Nat.add_assoc, Nat.add_comm 1 j] using this

theorem GetPFParticleIdMap.loop_inserts (i : Nat) (rest : List PFParticle) (m : PFParticleIdMap)
    (hm : m.WF) (hnd : (rest.map PFParticle.Self).Nodup)
    (hdis : ∀ p ∈ rest, p.Self ∉ m.map Prod.fst) :
    ∃ m', GetPFParticleIdMap.loop i rest m = .ok m' ∧ StdMap.WF m' ∧
      m'.Perm (m ++ idEntries i rest) := by
  induction rest generalizing i m with
  | nil => exact ⟨m, rfl, hm, by simp [idEntries]⟩
  | cons p rest ih =>
    have hins : (StdMap.insert m p.Self (Ptr.mk i p)).2 = true :=
      (StdMap.insert_snd_iff m hm _ _).mpr (hdis p (List.mem_cons_self _ _))
    have hperm := StdMap.insert_perm m p.Self (Ptr.mk i p) hins
    have hnd' : p.Self ∉ rest.map PFParticle.Self ∧ (rest.map PFParticle.Self).Nodup :=
      List.nodup_cons.mp hnd
    have hdis' : ∀ q ∈ rest, q.Self ∉ (StdMap.insert m p.Self (Ptr.mk i p)).1.map Prod.fst := by
      intro q hq hmem
      have hmem' := (hperm.map Prod.fst).subset hmem
      rcases List.mem_cons.mp hmem' with h | h
      · exact hnd'.1 (List.mem_map.mpr ⟨q, hq, h⟩)
      · exact hdis q (List.mem_cons_of_mem _ hq) h
    obtain ⟨m', hrun, hwf, hp⟩ :=
      ih (i + 1) _ (StdMap.insert_wf m hm _ _) hnd'.2 hdis'
    refine ⟨m', ?_, hwf, ?_⟩
    · simp only [GetPFParticleIdMap.loop, hins]
      simpa using hrun
    · refine hp.trans ?_
      have h1 := hperm.append_right (idEntries (i + 1) rest)
      refine h1.trans ?_
      simp only [idEntries, List.enumFrom_cons, List.map_cons, List.cons_append]
      exact List.perm_middle.symm

theorem GetPFParticleIdMap.loop_repeat (i : Nat) (rest : List PFParticle) (m : PFParticleIdMap)
    (hm : m.WF)
    (hbad : ¬ ((rest.map PFParticle.Self).Nodup ∧ ∀ p ∈ rest, p.Self ∉ m.map Prod.fst)) :
    GetPFParticleIdMap.loop i rest m = .error .repeatIDs := by
  induction rest generalizing i m with
  | nil => simp at hbad
  | cons p rest ih =>
    by_cases hins : (StdMap.insert m p.Self (Ptr.mk i p)).2 = true
    · have hperm := StdMap.insert_perm m p.Self (Ptr.mk i p) hins
      have hnot := (StdMap.insert_snd_iff m hm _ _).mp hins
      simp only [GetPFParticleIdMap.loop, hins]
      simp only [Bool.not_true, Bool.false_eq_true, if_false]
      apply ih (i + 1) _ (StdMap.insert_wf m hm _ _)
      rintro ⟨hnd, hdis⟩
      apply hbad
      refine ⟨?_, ?_⟩
      · simp only [List.map_cons]
        refine List.nodup_cons.mpr ⟨?_, hnd⟩
        intro hmem
        obtain ⟨q, hq, hqs⟩ := List.mem_map.mp hmem
        apply hdis q hq
        rw [hqs]
        exact (hperm.map Prod.fst).symm.subset (List.mem_cons_self _ _)
      · intro q hq
        rcases List.mem_cons.mp hq with h | h
        · rw [h]; exact hnot
        · intro hmem
          exact hdis q h ((hperm.map Prod.fst).symm.subset (List.mem_cons_of_mem _ hmem))
    · simp [GetPFParticleIdMap.loop, hins]

theorem nodup_self_iff (h : List PFParticle) :
    (h.map PFParticle.Self).Nodup ↔
      ∀ i j, ∀ hi : i < h.length, ∀ hj : j < h.length,
        i ≠ j → (h.get ⟨i, hi⟩).Self ≠ (h.get ⟨j, hj⟩).Self := by
  constructor
  · intro hnd i j hi hj hij heq
    apply hij
    have hi' : i < (h.map PFParticle.Self).length := by simpa using hi
    have hj' : j < (h.map PFParticle.Self).length := by simpa using hj
    have : (h.map PFParticle.Self)[i] = (h.map PFParticle.Self)[j] := by
      simpa using heq
    exact (hnd.getElem_inj_iff).mp this
  · intro hall
    rw [List.nodup_iff_injective_get]
    intro a b hab
    by_contra hne
    have ha : a.1 < h.length := by simpa using a.2
    have hb : b.1 < h.length := by simpa using b.2
    apply hall a.1 b.1 ha hb (fun h' => hne (Fin.ext h'))
    simpa using hab

end lar_pandora

namespace lar_pandora

/-- C4: `GetPFParticleIdMap`, called with an empty map, throws the "repeat IDs" exception exactly
when two particles at different positions of the collection have the same `Self()`, and it
returns normally for every collection whose IDs are pairwise distinct. -/
theorem GetPFParticleIdMap_throws_iff_repeat (pfParticleHandle : PFParticleHandle) :
    (GetPFParticleIdMap pfParticleHandle [] = .error .repeatIDs ↔
      ∃ i j, ∃ hi : i < pfParticleHandle.length, ∃ hj : j < pfParticleHandle.length,
        i ≠ j ∧ (pfParticleHandle.get ⟨i, hi⟩).Self = (pfParticleHandle.get ⟨j, hj⟩).Self) ∧
    ((∀ i j, ∀ hi : i < pfParticleHandle.length, ∀ hj : j < pfParticleHandle.length,
        i ≠ j → (pfParticleHandle.get ⟨i, hi⟩).Self ≠ (pfParticleHandle.get ⟨j, hj⟩).Self) →
      ∃ m, GetPFParticleIdMap pfParticleHandle [] = .ok m) := by
  have hwf : StdMap.WF ([] : PFParticleIdMap) := List.Pairwise.nil
  by_cases hnd : (pfParticleHandle.map PFParticle.Self).Nodup
  · obtain ⟨m, hrun, -, -⟩ :=
      GetPFParticleIdMap.loop_inserts 0 pfParticleHandle [] hwf hnd (by simp)
    have hall := (nodup_self_iff pfParticleHandle).mp hnd
    refine ⟨⟨?_, ?_⟩, fun _ => ⟨m, hrun⟩⟩
    · intro herr
      rw [GetPFParticleIdMap, hrun] at herr
      cases herr
    · rintro ⟨i, j, hi, hj, hij, heq⟩
      exact absurd heq (hall i j hi hj hij)
  · have herr := GetPFParticleIdMap.loop_repeat 0 pfParticleHandle [] hwf (fun h => hnd h.1)
    have hex : ¬ ∀ i j, ∀ hi : i < pfParticleHandle.length, ∀ hj : j < pfParticleHandle.length,
        i ≠ j → (pfParticleHandle.get ⟨i, hi⟩).Self ≠ (pfParticleHandle.get ⟨j, hj⟩).Self :=
      fun h => hnd ((nodup_self_iff pfParticleHandle).mpr h)
    refine ⟨⟨fun _ => ?_, fun _ => herr⟩, fun h => absurd h hex⟩
    by_contra hno
    apply hex
    intro i j hi hj hij heq
    exact hno ⟨i, j, hi, hj, hij, heq⟩

/-- C5: `GetPFParticleIdMap`, called with an empty map on a collection with pairwise distinct
IDs, returns a map with one entry per particle: as many entries as the collection has elements,
keys strictly ascending, the key set equal to the set of `Self()` IDs, every lookup that
succeeds returns a pointer to an element of the collection whose `Self()` is the key, and the
lookup of the `Self()` of the element at index `i` returns the pointer to that element. -/
theorem GetPFParticleIdMap_one_entry_per_particle (pfParticleHandle : PFParticleHandle)
    (hdistinct : (pfParticleHandle.map PFParticle.Self).Nodup) :
    ∃ m, GetPFParticleIdMap pfParticleHandle [] = .ok m ∧
      m.length = pfParticleHandle.length ∧
      StdMap.WF m ∧
      (∀ k, k ∈ m.map Prod.fst ↔ k ∈ pfParticleHandle.map PFParticle.Self) ∧
      (∀ k pParticle, m.find k = some pParticle →
        pParticle.obj.Self = k ∧ pfParticleHandle.get? pParticle.key = some pParticle.obj) ∧
      (∀ i, ∀ hi : i < pfParticleHandle.length,
        m.find (pfParticleHandle.get ⟨i, hi⟩).Self = some ⟨i, pfParticleHandle.get ⟨i, hi⟩⟩) := by
  have hwf : StdMap.WF ([] : PFParticleIdMap) := List.Pairwise.nil
  obtain ⟨m, hrun, hm, hperm⟩ :=
    GetPFParticleIdMap.loop_inserts 0 pfParticleHandle [] hwf hdistinct (by simp)
  simp only [List.nil_append] at hperm
  refine ⟨m, hrun, ?_, hm, ?_, ?_, ?_⟩
  · rw [hperm.length_eq]
    simp [idEntries]
  · intro k
    rw [← idEntries_keys 0 pfParticleHandle]
    exact (hperm.map Prod.fst).mem_iff
  · intro k pParticle hfind
    have hmem := hperm.subset (StdMap.find_mem m k pParticle hfind)
    obtain ⟨j, hj, hje⟩ := idEntries_mem 0 pfParticleHandle _ hmem
    have h1 : k = (pfParticleHandle.get ⟨j, hj⟩).Self := congrArg Prod.fst hje
    have h2 : pParticle = Ptr.mk (0 + j) (pfParticleHandle.get ⟨j, hj⟩) := congrArg Prod.snd hje
    subst h2
    refine ⟨h1.symm, ?_⟩
    simp [List.getElem?_eq_getElem hj]
  · intro i hi
    apply StdMap.find_of_mem m hm
    apply hperm.symm.subset
    simpa using idEntries_get 0 pfParticleHandle i hi

theorem GetPFParticleIdMap_one_entry_per_particle_witness :
    (([⟨3, true, [1]⟩, ⟨1, false, []⟩, ⟨2, true, []⟩] : PFParticleHandle).map
        PFParticle.Self).Nodup ∧
    ∃ m, GetPFParticleIdMap [⟨3, true, [1]⟩, ⟨1, false, []⟩, ⟨2, true, []⟩] [] = .ok m ∧
      m.length = ([⟨3, true, [1]⟩, ⟨1, false, []⟩, ⟨2, true, []⟩] : PFParticleHandle).length ∧
      StdMap.WF m ∧
      (∀ k, k ∈ m.map Prod.fst ↔
        k ∈ ([⟨3, true, [1]⟩, ⟨1, false, []⟩, ⟨2, true, []⟩] : PFParticleHandle).map
          PFParticle.Self) ∧
      (∀ k pParticle, m.find k = some pParticle →
        pParticle.obj.Self = k ∧
        ([⟨3, true, [1]⟩, ⟨1, false, []⟩, ⟨2, true, []⟩] : PFParticleHandle).get?
          pParticle.key = some pParticle.obj) ∧
      (∀ i, ∀ hi : i < ([⟨3, true, [1]⟩, ⟨1, false, []⟩, ⟨2, true, []⟩] :
          PFParticleHandle).length,
        m.find (([⟨3, true, [1]⟩, ⟨1, false, []⟩, ⟨2, true, []⟩] :
          PFParticleHandle).get ⟨i, hi⟩).Self =
          some ⟨i, ([⟨3, true, [1]⟩, ⟨1, false, []⟩, ⟨2, true, []⟩] :
            PFParticleHandle).get ⟨i, hi⟩⟩) :=
  ⟨by decide,
    GetPFParticleIdMap_one_entry_per_particle
      [⟨3, true, [1]⟩, ⟨1, false, []⟩, ⟨2, true, []⟩] (by decide)⟩

end lar_pandora

namespace lar_pandora

/-! ## `IsTarget` -/

theorem PropertiesMap.find_present_iff (m : PropertiesMap) (property : String) :
    (PropertiesMap.find m property).isSome = true ↔ property ∈ m.map Prod.fst := by
  simp only [PropertiesMap.find, List.find?_isSome, List.mem_map]
  constructor
  · rintro ⟨e, he, hk⟩
    exact ⟨e, he, by simpa using hk⟩
  · rintro ⟨e, he, hk⟩
    exact ⟨e, he, by simpa using hk⟩

theorem IsTarget.loop_iff (property : String) (v : PFParticleMetadataVector) :
    IsTarget.loop property v = true ↔
      property ∈ (v.map (fun md => md.obj.GetPropertiesMap.map Prod.fst)).flatten := by
  induction v with
  | nil => simp [IsTarget.loop]
  | cons md rest ih =>
    by_cases h : (PropertiesMap.find md.obj.GetPropertiesMap property).isSome = true
    · have h' := (PropertiesMap.find_present_iff _ _).mp h
      simp only [IsTarget.loop, h, if_true, List.map_cons, List.flatten_cons, List.mem_append,
        true_iff]
      exact Or.inl h'
    · have h' : property ∉ md.obj.GetPropertiesMap.map Prod.fst :=
        fun hm => h ((PropertiesMap.find_present_iff _ _).mpr hm)
      simp only [IsTarget.loop, h, if_false, List.map_cons, List.flatten_cons, List.mem_append,
        ih, h', false_or, Bool.false_eq_true]

theorem IsTarget_eq_loop (m_testBeamMode : Bool) (pParticle : Ptr PFParticle)
    (v : PFParticleMetadataVector) :
    IsTarget m_testBeamMode pParticle v =
      IsTarget.loop (if m_testBeamMode then "IsTestBeam" else "IsNeutrino") v := by
  cases v <;> simp [IsTarget, IsTarget.loop]

/-- C6: `IsTarget` returns true exactly when some metadata object of the vector has a
properties map containing the key selected by the mode (`IsTestBeam` in test-beam mode,
`IsNeutrino` otherwise), whatever value is stored under it; an empty vector gives false; the
result is the same for every particle argument and for every vector with the same keys. -/
theorem IsTarget_iff_key_present (m_testBeamMode : Bool) (pParticle : Ptr PFParticle)
    (pfParticleMetadataVector : PFParticleMetadataVector) :
    (IsTarget m_testBeamMode pParticle pfParticleMetadataVector = true ↔
      ∃ metadata ∈ pfParticleMetadataVector, ∃ value : Rat,
        ((if m_testBeamMode then "IsTestBeam" else "IsNeutrino"), value) ∈
          metadata.obj.GetPropertiesMap) ∧
    IsTarget m_testBeamMode pParticle [] = false ∧
    (∀ other : Ptr PFParticle,
      IsTarget m_testBeamMode other pfParticleMetadataVector =
        IsTarget m_testBeamMode pParticle pfParticleMetadataVector) ∧
    (∀ otherVector : PFParticleMetadataVector,
      otherVector.map (fun md => md.obj.GetPropertiesMap.map Prod.fst) =
        pfParticleMetadataVector.map (fun md => md.obj.GetPropertiesMap.map Prod.fst) →
      IsTarget m_testBeamMode pParticle otherVector =
        IsTarget m_testBeamMode pParticle pfParticleMetadataVector) := by
  refine ⟨?_, rfl, ?_, ?_⟩
  · rw [IsTarget_eq_loop, IsTarget.loop_iff]
    simp only [List.mem_flatten, List.mem_map]
    constructor
    · rintro ⟨ks, ⟨md, hmd, rfl⟩, hk⟩
      obtain ⟨e, he, hk⟩ := List.mem_map.mp hk
      exact ⟨md, hmd, e.2, by rw [← hk]; exact he⟩
    · rintro ⟨md, hmd, value, hv⟩
      exact ⟨_, ⟨md, hmd, rfl⟩, List.mem_map.mpr ⟨_, hv, rfl⟩⟩
  · intro other
    rw [IsTarget_eq_loop, IsTarget_eq_loop]
  · intro otherVector hkeys
    rw [Bool.eq_iff_iff, IsTarget_eq_loop, IsTarget_eq_loop, IsTarget.loop_iff,
      IsTarget.loop_iff, hkeys]

end lar_pandora

namespace lar_pandora

/-! ## `GetFinalStatePFParticleVectors` -/

theorem GetFinalStatePFParticleVectors.daughters_ok (pfParticleMap : PFParticleIdMap)
    (ds : List Nat) (nuParticles : PFParticleVector)
    (hd : ∀ d ∈ ds, d ∈ pfParticleMap.map Prod.fst) :
    ∃ found, GetFinalStatePFParticleVectors.daughters pfParticleMap ds nuParticles =
        .ok (nuParticles ++ found) ∧
      found.map some = ds.map (fun d => pfParticleMap.find d) := by
  induction ds generalizing nuParticles with
  | nil => exact ⟨[], by simp [GetFinalStatePFParticleVectors.daughters], rfl⟩
  | cons d ds ih =>
    have hsome := (StdMap.find_isSome_iff pfParticleMap d).mpr (hd d (List.mem_cons_self _ _))
    obtain ⟨p, hp⟩ := Option.isSome_iff_exists.mp hsome
    obtain ⟨found, hrun, hfound⟩ :=
      ih (nuParticles ++ [p]) (fun d' hd' => hd d' (List.mem_cons_of_mem _ hd'))
    refine ⟨p :: found, ?_, ?_⟩
    · simp only [GetFinalStatePFParticleVectors.daughters, StdMap.at, hp]
      simpa using hrun
    · simp [hfound, hp]

theorem GetFinalStatePFParticleVectors.loop_returns (m_testBeamMode : Bool)
    (pfParticleMap : PFParticleIdMap) (md : PFParticleMetadataMap)
    (l : List (Nat × Ptr PFParticle)) (cr nu cr' nu' : PFParticleVector)
    (h : GetFinalStatePFParticleVectors.loop m_testBeamMode pfParticleMap md l cr nu =
      .ok (cr', nu')) :
    cr' = cr ++ (l.filter (isCosmicPrimary m_testBeamMode md)).map Prod.snd ∧
    ∀ it ∈ l, it.2.obj.IsPrimary = true → ∃ v, md.find it.2.key = some v := by
  induction l generalizing cr nu with
  | nil =>
    simp only [GetFinalStatePFParticleVectors.loop, Except.ok.injEq, Prod.mk.injEq] at h
    simp [h.1]
  | cons it rest ih =>
    rw [GetFinalStatePFParticleVectors.loop] at h
    by_cases hprim : it.2.obj.IsPrimary = true
    · simp only [hprim, Bool.not_true, Bool.false_eq_true, if_false, StdMap.at] at h
      cases hfind : md.find it.2.key with
      | none => simp [hfind] at h
      | some v =>
        simp only [hfind] at h
        by_cases htgt : IsTarget m_testBeamMode it.2 v = true
        · simp only [htgt, Bool.not_true, Bool.false_eq_true, if_false] at h
          split at h
          · cases h
          · split at h
            · cases h
            · obtain ⟨h1, h2⟩ := ih _ _ h
              refine ⟨?_, ?_⟩
              · simp [List.filter_cons, isCosmicPrimary, hprim, hfind, htgt, h1]
              · intro it' hit'
                rcases List.mem_cons.mp hit' with e | e
                · subst e; exact fun _ => ⟨v, hfind⟩
                · exact h2 it' e
        · have htgt' : IsTarget m_testBeamMode it.2 v = false := by simpa using htgt
          simp only [htgt', Bool.not_false, if_true] at h
          obtain ⟨h1, h2⟩ := ih _ _ h
          refine ⟨?_, ?_⟩
          · simp [List.filter_cons, isCosmicPrimary, hprim, hfind, htgt', h1]
          · intro it' hit'
            rcases List.mem_cons.mp hit' with e | e
            · subst e; exact fun _ => ⟨v, hfind⟩
            · exact h2 it' e
    · have hprim' : it.2.obj.IsPrimary = false := by simpa using hprim
      simp only [hprim', Bool.not_false, if_true] at h
      obtain ⟨h1, h2⟩ := ih _ _ h
      refine ⟨?_, ?_⟩
      · simp [List.filter_cons, isCosmicPrimary, hprim', h1]
      · intro it' hit'
        rcases List.mem_cons.mp hit' with e | e
        · subst e; intro hp; simp [hprim'] at hp
        · exact h2 it' e

theorem GetFinalStatePFParticleVectors.loop_skip (m_testBeamMode : Bool)
    (pfParticleMap : PFParticleIdMap) (md : PFParticleMetadataMap)
    (pre rest : List (Nat × Ptr PFParticle)) (cr nu : PFParticleVector)
    (hmeta : ∀ it ∈ pre, it.2.obj.IsPrimary = true → ∃ v, md.find it.2.key = some v)
    (hnot : ∀ it ∈ pre, ¬ isTargetPrimary m_testBeamMode md it = true) :
    GetFinalStatePFParticleVectors.loop m_testBeamMode pfParticleMap md (pre ++ rest) cr nu =
      GetFinalStatePFParticleVectors.loop m_testBeamMode pfParticleMap md rest
        (cr ++ (pre.filter (isCosmicPrimary m_testBeamMode md)).map Prod.snd) nu := by
  induction pre generalizing cr with
  | nil => simp
  | cons it pre ih =>
    have hmeta' : ∀ it' ∈ pre, it'.2.obj.IsPrimary = true → ∃ v, md.find it'.2.key = some v :=
      fun it' h => hmeta it' (List.mem_cons_of_mem _ h)
    have hnot' : ∀ it' ∈ pre, ¬ isTargetPrimary m_testBeamMode md it' = true :=
      fun it' h => hnot it' (List.mem_cons_of_mem _ h)
    rw [List.cons_append, GetFinalStatePFParticleVectors.loop]
    by_cases hprim : it.2.obj.IsPrimary = true
    · obtain ⟨v, hfind⟩ := hmeta it (List.mem_cons_self _ _) hprim
      have htgt : IsTarget m_testBeamMode it.2 v = false := by
        have := hnot it (List.mem_cons_self _ _)
        simpa [isTargetPrimary, hprim, hfind] using this
      simp only [hprim, Bool.not_true, Bool.false_eq_true, if_false, StdMap.at, hfind, htgt,
        Bool.not_false, if_true]
      rw [ih _ hmeta' hnot']
      simp [List.filter_cons, isCosmicPrimary, hprim, hfind, htgt]
    · have hprim' : it.2.obj.IsPrimary = false := by simpa using hprim
      simp only [hprim', Bool.not_false, if_true]
      rw [ih _ hmeta' hnot']
      simp [List.filter_cons, isCosmicPrimary, hprim']

theorem GetFinalStatePFParticleVectors.loop_target (m_testBeamMode : Bool)
    (pfParticleMap : PFParticleIdMap) (md : PFParticleMetadataMap)
    (it : Nat × Ptr PFParticle) (rest : List (Nat × Ptr PFParticle)) (cr nu : PFParticleVector)
    (htgt : isTargetPrimary m_testBeamMode md it = true) :
    GetFinalStatePFParticleVectors.loop m_testBeamMode pfParticleMap md (it :: rest) cr nu =
      if !nu.isEmpty && !m_testBeamMode then .error .multipleNeutrinos
      else
        match GetFinalStatePFParticleVectors.daughters pfParticleMap it.2.obj.Daughters nu with
        | .error e => .error e
        | .ok nu' =>
          GetFinalStatePFParticleVectors.loop m_testBeamMode pfParticleMap md rest cr nu' := by
  have hprim : it.2.obj.IsPrimary = true := by
    simp only [isTargetPrimary, Bool.and_eq_true] at htgt
    exact htgt.1
  cases hfind : md.find it.2.key with
  | none => simp [isTargetPrimary, hfind] at htgt
  | some v =>
    have hv : IsTarget m_testBeamMode it.2 v = true := by
      simpa [isTargetPrimary, hprim, hfind] using htgt
    rw [GetFinalStatePFParticleVectors.loop]
    simp only [hprim, Bool.not_true, Bool.false_eq_true, if_false, StdMap.at, hfind, hv]

end lar_pandora

namespace lar_pandora

/-- C1: when `GetFinalStatePFParticleVectors`, called with empty output vectors on an ID map
(keys strictly ascending), returns normally, `crParticles` is the list of the primary particles
of the ID map on which `IsTarget` is false, one per map entry and in ascending order of the map
key (of `Self()`, when every key is the `Self()` of its particle); every primary particle of the
map then has a metadata entry, and every element of `crParticles` is primary and not the
target. -/
theorem GetFinalStatePFParticleVectors_crParticles (m_testBeamMode : Bool)
    (pfParticleMap : PFParticleIdMap) (pfParticleMetadataMap : PFParticleMetadataMap)
    (crParticles nuParticles : PFParticleVector)
    (hmap : StdMap.WF pfParticleMap)
    (hret : GetFinalStatePFParticleVectors m_testBeamMode pfParticleMap pfParticleMetadataMap
      [] [] = .ok (crParticles, nuParticles)) :
    crParticles =
      (pfParticleMap.filter (isCosmicPrimary m_testBeamMode pfParticleMetadataMap)).map
        Prod.snd ∧
    List.Pairwise (fun a b => a < b)
      ((pfParticleMap.filter (isCosmicPrimary m_testBeamMode pfParticleMetadataMap)).map
        Prod.fst) ∧
    (∀ it ∈ pfParticleMap, it.2.obj.IsPrimary = true →
      it.2.key ∈ pfParticleMetadataMap.map Prod.fst) ∧
    (∀ pParticle ∈ crParticles, pParticle.obj.IsPrimary = true ∧
      ∃ metadata, pfParticleMetadataMap.find pParticle.key = some metadata ∧
        IsTarget m_testBeamMode pParticle metadata = false) ∧
    ((∀ it ∈ pfParticleMap, it.1 = it.2.obj.Self) →
      List.Pairwise (fun a b => a < b) (crParticles.map (fun p => p.obj.Self))) := by
  obtain ⟨hcr, hmeta⟩ := GetFinalStatePFParticleVectors.loop_returns _ _ _ _ _ _ _ _ hret
  simp only [List.nil_append] at hcr
  have hsorted : List.Pairwise (fun a b : Nat × Ptr PFParticle => a.1 < b.1)
      (pfParticleMap.filter (isCosmicPrimary m_testBeamMode pfParticleMetadataMap)) :=
    List.Pairwise.sublist (List.filter_sublist _) hmap
  refine ⟨hcr, ?_, fun it hit hp => (StdMap.mem_keys_iff _ _).mpr (hmeta it hit hp), ?_, ?_⟩
  · rw [List.pairwise_map]
    exact hsorted
  · intro pParticle hp
    rw [hcr] at hp
    obtain ⟨it, hit, rfl⟩ := List.mem_map.mp hp
    have hc := (List.mem_filter.mp hit).2
    simp only [isCosmicPrimary, Bool.and_eq_true] at hc
    refine ⟨hc.1, ?_⟩
    cases hfind : pfParticleMetadataMap.find it.2.key with
    | none => simp [hfind] at hc
    | some v => exact ⟨v, rfl, by simpa [hfind] using hc.2⟩
  · intro hkeys
    rw [hcr, List.map_map, List.pairwise_map]
    refine List.Pairwise.imp_of_mem ?_ hsorted
    intro a b ha hb hab
    have ha' := hkeys a (List.mem_filter.mp ha).1
    have hb' := hkeys b (List.mem_filter.mp hb).1
    simp only [Function.comp]
    omega

theorem GetFinalStatePFParticleVectors_crParticles_witness :
    StdMap.WF sampleIdMap ∧
    GetFinalStatePFParticleVectors false sampleIdMap sampleMetadataMap [] [] =
      .ok ([⟨1, ⟨11, true, []⟩⟩], [⟨2, ⟨12, false, []⟩⟩, ⟨3, ⟨13, false, []⟩⟩]) ∧
    ([⟨1, ⟨11, true, []⟩⟩] : PFParticleVector) =
      (sampleIdMap.filter (isCosmicPrimary false sampleMetadataMap)).map Prod.snd ∧
    List.Pairwise (fun a b => a < b)
      ((sampleIdMap.filter (isCosmicPrimary false sampleMetadataMap)).map Prod.fst) ∧
    (∀ it ∈ sampleIdMap, it.2.obj.IsPrimary = true →
      it.2.key ∈ sampleMetadataMap.map Prod.fst) ∧
    (∀ pParticle ∈ ([⟨1, ⟨11, true, []⟩⟩] : PFParticleVector), pParticle.obj.IsPrimary = true ∧
      ∃ metadata, StdMap.find sampleMetadataMap pParticle.key = some metadata ∧
        IsTarget false pParticle metadata = false) ∧
    ((∀ it ∈ sampleIdMap, it.1 = it.2.obj.Self) →
      List.Pairwise (fun a b => a < b)
        (([⟨1, ⟨11, true, []⟩⟩] : PFParticleVector).map (fun p => p.obj.Self))) :=
  ⟨by unfold StdMap.WF; decide, rfl,
    GetFinalStatePFParticleVectors_crParticles false sampleIdMap sampleMetadataMap _ _
      (by unfold StdMap.WF; decide) rfl⟩

end lar_pandora

namespace lar_pandora

/-- C2, as stated, fails: in `sampleHandle` exactly one primary particle is the target and both
IDs of its daughter list are keys of the ID map, but the second primary particle has no
associated metadata, so it has no entry in the metadata map that `GetPFParticleMetadataMap`
builds, and the checked access `pfParticleMetadataMap.at(pParticle)` throws
`std::out_of_range`: the call does not return normally. -/
theorem GetFinalStatePFParticleVectors_nuParticles_counterexample :
    GetPFParticleIdMap sampleHandle [] = .ok sampleIdMap ∧
    GetPFParticleMetadataMap ⟨[nuMetadata, [], [], []]⟩ sampleHandle [] =
      .ok sparseMetadataMap ∧
    sampleIdMap.filter (isTargetPrimary false sparseMetadataMap) =
      [(10, ⟨0, ⟨10, true, [12, 13]⟩⟩)] ∧
    (∀ d ∈ [12, 13], d ∈ sampleIdMap.map Prod.fst) ∧
    GetFinalStatePFParticleVectors false sampleIdMap sparseMetadataMap [] [] =
      .error .outOfRange :=
  ⟨rfl, rfl, by decide, by decide, rfl⟩

/-- C2, amended: in neutrino mode and called with empty output vectors, on every input in which
every primary particle of the ID map has an entry in the metadata map, exactly one primary
particle is the target, and every ID of its daughter list is a key of the ID map,
`GetFinalStatePFParticleVectors` returns normally and `nuParticles` lists, in the order of the
daughter list, the particle that the ID map gives for each daughter ID. -/
theorem GetFinalStatePFParticleVectors_nuParticles
    (pfParticleMap : PFParticleIdMap) (pfParticleMetadataMap : PFParticleMetadataMap)
    (target : Nat × Ptr PFParticle)
    (hmeta : ∀ it ∈ pfParticleMap, it.2.obj.IsPrimary = true →
      it.2.key ∈ pfParticleMetadataMap.map Prod.fst)
    (hone : pfParticleMap.filter (isTargetPrimary false pfParticleMetadataMap) = [target])
    (hdaughters : ∀ d ∈ target.2.obj.Daughters, d ∈ pfParticleMap.map Prod.fst) :
    ∃ crParticles nuParticles,
      GetFinalStatePFParticleVectors false pfParticleMap pfParticleMetadataMap [] [] =
        .ok (crParticles, nuParticles) ∧
      nuParticles.map some = target.2.obj.Daughters.map (fun d => pfParticleMap.find d) := by
  obtain ⟨pre, post, hsplit, hpre, htgt, hpost⟩ := List.filter_eq_cons_iff.mp hone
  replace hmeta : ∀ it ∈ pfParticleMap, it.2.obj.IsPrimary = true →
      ∃ metadata, pfParticleMetadataMap.find it.2.key = some metadata :=
    fun it hit hp => (StdMap.mem_keys_iff _ _).mp (hmeta it hit hp)
  have hpost' : ∀ it ∈ post, ¬ isTargetPrimary false pfParticleMetadataMap it = true :=
    List.filter_eq_nil_iff.mp hpost
  have hmem : ∀ it, it ∈ pre ∨ it ∈ post → it ∈ pfParticleMap := by
    intro it h
    rw [hsplit]
    rcases h with h | h
    · exact List.mem_append_left _ h
    · exact List.mem_append_right _ (List.mem_cons_of_mem _ h)
  obtain ⟨found, hrun, hfound⟩ :=
    GetFinalStatePFParticleVectors.daughters_ok pfParticleMap target.2.obj.Daughters []
      hdaughters
  refine ⟨(pre.filter (isCosmicPrimary false pfParticleMetadataMap)).map Prod.snd ++
    (post.filter (isCosmicPrimary false pfParticleMetadataMap)).map Prod.snd, found, ?_, hfound⟩
  have h1 := GetFinalStatePFParticleVectors.loop_skip false pfParticleMap pfParticleMetadataMap
    pre (target :: post) [] [] (fun it h => hmeta it (hmem it (Or.inl h))) hpre
  have h2 := GetFinalStatePFParticleVectors.loop_target false pfParticleMap
    pfParticleMetadataMap target post
    ([] ++ (pre.filter (isCosmicPrimary false pfParticleMetadataMap)).map Prod.snd) [] htgt
  have h3 := GetFinalStatePFParticleVectors.loop_skip false pfParticleMap pfParticleMetadataMap
    post [] ([] ++ (pre.filter (isCosmicPrimary false pfParticleMetadataMap)).map Prod.snd)
    found (fun it h => hmeta it (hmem it (Or.inr h))) hpost'
  rw [GetFinalStatePFParticleVectors]
  refine (congrArg (fun l => GetFinalStatePFParticleVectors.loop false pfParticleMap
    pfParticleMetadataMap l [] []) hsplit).trans ?_
  simp only [List.append_nil] at h3
  rw [h1, h2, hrun]
  simp only [List.isEmpty_nil, Bool.not_true, Bool.false_and, Bool.false_eq_true, if_false,
    List.nil_append] at h3 ⊢
  rw [h3]
  simp [GetFinalStatePFParticleVectors.loop]

theorem GetFinalStatePFParticleVectors_nuParticles_witness :
    (∀ it ∈ sampleIdMap, it.2.obj.IsPrimary = true →
      it.2.key ∈ sampleMetadataMap.map Prod.fst) ∧
    sampleIdMap.filter (isTargetPrimary false sampleMetadataMap) =
      [(10, ⟨0, ⟨10, true, [12, 13]⟩⟩)] ∧
    (∀ d ∈ [12, 13], d ∈ sampleIdMap.map Prod.fst) ∧
    ∃ crParticles nuParticles,
      GetFinalStatePFParticleVectors false sampleIdMap sampleMetadataMap [] [] =
        .ok (crParticles, nuParticles) ∧
      nuParticles.map some = [12, 13].map (fun d => StdMap.find sampleIdMap d) :=
  ⟨by decide, by decide, by decide,
    GetFinalStatePFParticleVectors_nuParticles sampleIdMap sampleMetadataMap
      (10, ⟨0, ⟨10, true, [12, 13]⟩⟩) (by decide) (by decide) (by decide)⟩

end lar_pandora

namespace lar_pandora

/-- C3, as stated, fails: in `danglingIdMap` two primary particles are identified as the
neutrino, but the daughter list of the first names an ID that is not a key of the ID map, and
the call raises "Invalid PFParticle collection!" before it reaches the second neutrino. -/
theorem GetFinalStatePFParticleVectors_multipleNeutrinos_counterexample :
    danglingIdMap.filter (isTargetPrimary false twoNeutrinosMetadataMap) =
      [(10, ⟨0, ⟨10, true, [99]⟩⟩), (11, ⟨1, ⟨11, true, []⟩⟩)] ∧
    GetFinalStatePFParticleVectors false danglingIdMap twoNeutrinosMetadataMap [] [] =
      .error .invalidCollection :=
  ⟨by decide, rfl⟩

/-- C3, amended: in neutrino mode, on every input whose ID map (keys strictly ascending)
contains more than one primary particle identified as the neutrino, in which every primary
particle with a smaller key than the second neutrino has an entry in the metadata map, and in
which the daughter list of the first neutrino is not empty and names only keys of the ID map,
`GetFinalStatePFParticleVectors` raises "This event contains multiple reconstructed
neutrinos!", whatever the output vectors hold at the call. -/
theorem GetFinalStatePFParticleVectors_multipleNeutrinos
    (pfParticleMap : PFParticleIdMap) (pfParticleMetadataMap : PFParticleMetadataMap)
    (crParticles nuParticles : PFParticleVector)
    (first second : Nat × Ptr PFParticle) (others : List (Nat × Ptr PFParticle))
    (hmap : StdMap.WF pfParticleMap)
    (hmany : pfParticleMap.filter (isTargetPrimary false pfParticleMetadataMap) =
      first :: second :: others)
    (hmeta : ∀ it ∈ pfParticleMap, it.1 < second.1 → it.2.obj.IsPrimary = true →
      it.2.key ∈ pfParticleMetadataMap.map Prod.fst)
    (hnonempty : first.2.obj.Daughters ≠ [])
    (hdaughters : ∀ d ∈ first.2.obj.Daughters, d ∈ pfParticleMap.map Prod.fst) :
    GetFinalStatePFParticleVectors false pfParticleMap pfParticleMetadataMap
      crParticles nuParticles = .error .multipleNeutrinos := by
  obtain ⟨pre, l2, hsplit, hpre, hfirst, hrest⟩ := List.filter_eq_cons_iff.mp hmany
  obtain ⟨mid, post, hsplit2, hmid, hsecond, -⟩ := List.filter_eq_cons_iff.mp hrest
  have hwf : List.Pairwise (fun a b : Nat × Ptr PFParticle => a.1 < b.1)
      (pre ++ first :: l2) := hsplit ▸ hmap
  obtain ⟨-, hwf2, hcross⟩ := List.pairwise_append.mp hwf
  have hwf3 : List.Pairwise (fun a b : Nat × Ptr PFParticle => a.1 < b.1)
      (mid ++ second :: post) := hsplit2 ▸ (List.pairwise_cons.mp hwf2).2
  obtain ⟨-, -, hcross2⟩ := List.pairwise_append.mp hwf3
  have hsec_l2 : second ∈ l2 := by rw [hsplit2]; simp
  have hmeta_pre : ∀ it ∈ pre, it.2.obj.IsPrimary = true →
      ∃ v, pfParticleMetadataMap.find it.2.key = some v := by
    intro it hit hp
    refine (StdMap.mem_keys_iff _ _).mp (hmeta it ?_ ?_ hp)
    · rw [hsplit]; exact List.mem_append_left _ hit
    · exact hcross it hit second (List.mem_cons_of_mem _ hsec_l2)
  have hmeta_mid : ∀ it ∈ mid, it.2.obj.IsPrimary = true →
      ∃ v, pfParticleMetadataMap.find it.2.key = some v := by
    intro it hit hp
    refine (StdMap.mem_keys_iff _ _).mp (hmeta it ?_ ?_ hp)
    · rw [hsplit, hsplit2]
      exact List.mem_append_right _ (List.mem_cons_of_mem _ (List.mem_append_left _ hit))
    · exact hcross2 it hit second (List.mem_cons_self _ _)
  rw [GetFinalStatePFParticleVectors]
  refine (congrArg (fun l => GetFinalStatePFParticleVectors.loop false pfParticleMap
    pfParticleMetadataMap l crParticles nuParticles) hsplit).trans ?_
  rw [GetFinalStatePFParticleVectors.loop_skip false pfParticleMap pfParticleMetadataMap
    pre (first :: l2) crParticles nuParticles hmeta_pre hpre]
  rw [GetFinalStatePFParticleVectors.loop_target false pfParticleMap pfParticleMetadataMap
    first l2 _ nuParticles hfirst]
  obtain ⟨found, hrun, hfound⟩ :=
    GetFinalStatePFParticleVectors.daughters_ok pfParticleMap first.2.obj.Daughters
      nuParticles hdaughters
  have hfound_ne : found ≠ [] := by
    intro h
    rw [h] at hfound
    exact hnonempty (List.map_eq_nil_iff.mp hfound.symm)
  by_cases hnu : nuParticles.isEmpty = true
  · simp only [hnu, Bool.not_true, Bool.false_and, Bool.false_eq_true, if_false, hrun]
    rw [hsplit2]
    rw [GetFinalStatePFParticleVectors.loop_skip false pfParticleMap pfParticleMetadataMap
      mid (second :: post) _ _ hmeta_mid hmid]
    rw [GetFinalStatePFParticleVectors.loop_target false pfParticleMap pfParticleMetadataMap
      second post _ _ hsecond]
    have : (nuParticles ++ found).isEmpty = false := by
      cases nuParticles <;> cases found <;> simp at hfound_ne ⊢
    simp [this]
  · simp [hnu]

theorem GetFinalStatePFParticleVectors_multipleNeutrinos_witness :
    StdMap.WF twoPrimariesIdMap ∧
    twoPrimariesIdMap.filter (isTargetPrimary false twoNeutrinosMetadataMap) =
      [(10, ⟨0, ⟨10, true, [12]⟩⟩), (11, ⟨1, ⟨11, true, []⟩⟩)] ∧
    (∀ it ∈ twoPrimariesIdMap, it.1 < 11 → it.2.obj.IsPrimary = true →
      it.2.key ∈ twoNeutrinosMetadataMap.map Prod.fst) ∧
    ([12] : List Nat) ≠ [] ∧
    (∀ d ∈ [12], d ∈ twoPrimariesIdMap.map Prod.fst) ∧
    GetFinalStatePFParticleVectors false twoPrimariesIdMap twoNeutrinosMetadataMap [] [] =
      .error .multipleNeutrinos :=
  ⟨by unfold StdMap.WF; decide, by decide, by decide, by decide, by decide,
    GetFinalStatePFParticleVectors_multipleNeutrinos twoPrimariesIdMap twoNeutrinosMetadataMap
      [] [] (10, ⟨0, ⟨10, true, [12]⟩⟩) (11, ⟨1, ⟨11, true, []⟩⟩) []
      (by unfold StdMap.WF; decide) (by decide) (by decide) (by decide) (by decide)⟩

/-- The check for a second neutrino looks at `nuParticles`, not at the particles seen: when the
first neutrino has no daughters, `nuParticles` is still empty at the second one and the call
returns normally, with both output vectors empty. -/
theorem GetFinalStatePFParticleVectors_childless_neutrinos :
    ([(10, ⟨0, ⟨10, true, []⟩⟩), (11, ⟨1, ⟨11, true, []⟩⟩)] : PFParticleIdMap).filter
        (isTargetPrimary false twoNeutrinosMetadataMap) =
      [(10, ⟨0, ⟨10, true, []⟩⟩), (11, ⟨1, ⟨11, true, []⟩⟩)] ∧
    GetFinalStatePFParticleVectors false
        [(10, ⟨0, ⟨10, true, []⟩⟩), (11, ⟨1, ⟨11, true, []⟩⟩)] twoNeutrinosMetadataMap [] [] =
      .ok ([], []) :=
  ⟨by decide, rfl⟩

end lar_pandora

namespace lar_pandora

/-! ## `CollectTracksAndShowers` -/

theorem FindManyP.at_of_lt {α : Type} (assoc : FindManyP α) (i : Nat)
    (h : i < assoc.bColl.length) :
    assoc.at i = .ok ((assoc.bColl.get? i).getD []) := by
  simp [FindManyP.at, List.getElem?_eq_getElem h]

theorem CollectTracksAndShowers.loop_cons (tA : FindManyP Track) (sA : FindManyP Shower)
    (p : Ptr PFParticle) (rest : PFParticleVector) (tracks : TrackVector)
    (showers : ShowerVector) (hk : p.key < tA.bColl.length ∧ p.key < sA.bColl.length) :
    CollectTracksAndShowers.loop tA sA (p :: rest) tracks showers =
      if (tracksOf tA p).length = 0 ∧ (showersOf sA p).length = 0 then
        CollectTracksAndShowers.loop tA sA rest tracks showers
      else if (tracksOf tA p).length = 1 ∧ (showersOf sA p).length = 0 then
        CollectTracksAndShowers.loop tA sA rest (tracks ++ (tracksOf tA p).head?.toList) showers
      else if (tracksOf tA p).length = 0 ∧ (showersOf sA p).length = 1 then
        CollectTracksAndShowers.loop tA sA rest tracks (showers ++ (showersOf sA p).head?.toList)
      else
        .error (.tracksAndShowers (tracksOf tA p).length (showersOf sA p).length p.obj.Self) := by
  rw [CollectTracksAndShowers.loop, FindManyP.at_of_lt tA _ hk.1, FindManyP.at_of_lt sA _ hk.2]
  rfl

theorem CollectTracksAndShowers.loop_collects (tA : FindManyP Track) (sA : FindManyP Shower)
    (particles : PFParticleVector) (tracks : TrackVector) (showers : ShowerVector)
    (hkeys : ∀ p ∈ particles, p.key < tA.bColl.length ∧ p.key < sA.bColl.length)
    (hfew : ∀ p ∈ particles, (tracksOf tA p).length + (showersOf sA p).length < 2) :
    CollectTracksAndShowers.loop tA sA particles tracks showers =
      .ok (tracks ++ singleTracks tA sA particles, showers ++ singleShowers tA sA particles) := by
  induction particles generalizing tracks showers with
  | nil => simp [CollectTracksAndShowers.loop, singleTracks, singleShowers]
  | cons p rest ih =>
    have hk := hkeys p (List.mem_cons_self _ _)
    have hf := hfew p (List.mem_cons_self _ _)
    have ih' := fun t s => ih t s (fun q hq => hkeys q (List.mem_cons_of_mem _ hq))
      (fun q hq => hfew q (List.mem_cons_of_mem _ hq))
    rw [CollectTracksAndShowers.loop_cons tA sA p rest tracks showers hk]
    simp only [singleTracks, singleShowers, List.filterMap_cons] at ih' ⊢
    generalize tracksOf tA p = T at hf ⊢
    generalize showersOf sA p = S at hf ⊢
    match T, S, hf with
    | [], [], _ => simp [ih']
    | [t], [], _ => simp [ih']
    | [], [s], _ => simp [ih']
    | _ :: _ :: _, _, h => simp at h; omega
    | _ :: _, _ :: _, h => simp at h; omega
    | _, _ :: _ :: _, h => simp at h; omega

theorem CollectTracksAndShowers.loop_throws (tA : FindManyP Track) (sA : FindManyP Shower)
    (particles : PFParticleVector) (tracks : TrackVector) (showers : ShowerVector)
    (hkeys : ∀ p ∈ particles, p.key < tA.bColl.length ∧ p.key < sA.bColl.length)
    (hmany : ∃ p ∈ particles, 2 ≤ (tracksOf tA p).length + (showersOf sA p).length) :
    ∃ nTracks nShowers self, 2 ≤ nTracks + nShowers ∧
      CollectTracksAndShowers.loop tA sA particles tracks showers =
        .error (.tracksAndShowers nTracks nShowers self) := by
  induction particles generalizing tracks showers with
  | nil => simp at hmany
  | cons p rest ih =>
    have hk := hkeys p (List.mem_cons_self _ _)
    have ih' := fun t s h => ih t s (fun q hq => hkeys q (List.mem_cons_of_mem _ hq)) h
    rw [CollectTracksAndShowers.loop_cons tA sA p rest tracks showers hk]
    by_cases hp : 2 ≤ (tracksOf tA p).length + (showersOf sA p).length
    · refine ⟨(tracksOf tA p).length, (showersOf sA p).length, p.obj.Self, hp, ?_⟩
      have h1 : ¬ ((tracksOf tA p).length = 0 ∧ (showersOf sA p).length = 0) := by omega
      have h2 : ¬ ((tracksOf tA p).length = 1 ∧ (showersOf sA p).length = 0) := by omega
      have h3 : ¬ ((tracksOf tA p).length = 0 ∧ (showersOf sA p).length = 1) := by omega
      simp only [h1, h2, h3, if_false]
    · have hrest : ∃ q ∈ rest, 2 ≤ (tracksOf tA q).length + (showersOf sA q).length := by
        obtain ⟨q, hq, hq2⟩ := hmany
        rcases List.mem_cons.mp hq with h | h
        · subst h; exact absurd hq2 hp
        · exact ⟨q, h, hq2⟩
      by_cases h1 : (tracksOf tA p).length = 0 ∧ (showersOf sA p).length = 0
      · rw [if_pos h1]; exact ih' _ _ hrest
      · rw [if_neg h1]
        by_cases h2 : (tracksOf tA p).length = 1 ∧ (showersOf sA p).length = 0
        · rw [if_pos h2]; exact ih' _ _ hrest
        · rw [if_neg h2]
          by_cases h3 : (tracksOf tA p).length = 0 ∧ (showersOf sA p).length = 1
          · rw [if_pos h3]; exact ih' _ _ hrest
          · exfalso; omega

/-- C7: `CollectTracksAndShowers`, called with empty output vectors on particles that point
into the collection of the handle over which the two associations were built, raises its
exception exactly when some input particle has two or more associated objects (tracks plus
showers); otherwise `tracks` holds the single track of each particle with exactly one track and
no shower, `showers` the single shower of each particle with exactly one shower and no track,
both in input order, and the other particles contribute nothing. -/
theorem CollectTracksAndShowers_result (particles : PFParticleVector)
    (pfPartToTrackAssoc : FindManyP Track) (pfPartToShowerAssoc : FindManyP Shower)
    (hkeys : ∀ p ∈ particles,
      p.key < pfPartToTrackAssoc.bColl.length ∧ p.key < pfPartToShowerAssoc.bColl.length) :
    ((∃ e, CollectTracksAndShowers particles pfPartToTrackAssoc pfPartToShowerAssoc [] [] =
        .error e) ↔
      ∃ p ∈ particles, 2 ≤ (tracksOf pfPartToTrackAssoc p).length +
        (showersOf pfPartToShowerAssoc p).length) ∧
    ((∃ nTracks nShowers self,
        CollectTracksAndShowers particles pfPartToTrackAssoc pfPartToShowerAssoc [] [] =
          .error (.tracksAndShowers nTracks nShowers self)) ↔
      ∃ p ∈ particles, 2 ≤ (tracksOf pfPartToTrackAssoc p).length +
        (showersOf pfPartToShowerAssoc p).length) ∧
    ((¬ ∃ p ∈ particles, 2 ≤ (tracksOf pfPartToTrackAssoc p).length +
        (showersOf pfPartToShowerAssoc p).length) →
      CollectTracksAndShowers particles pfPartToTrackAssoc pfPartToShowerAssoc [] [] =
        .ok (singleTracks pfPartToTrackAssoc pfPartToShowerAssoc particles,
          singleShowers pfPartToTrackAssoc pfPartToShowerAssoc particles)) := by
  have hok : (¬ ∃ p ∈ particles, 2 ≤ (tracksOf pfPartToTrackAssoc p).length +
        (showersOf pfPartToShowerAssoc p).length) →
      CollectTracksAndShowers particles pfPartToTrackAssoc pfPartToShowerAssoc [] [] =
        .ok (singleTracks pfPartToTrackAssoc pfPartToShowerAssoc particles,
          singleShowers pfPartToTrackAssoc pfPartToShowerAssoc particles) := by
    intro hno
    have hfew : ∀ p ∈ particles, (tracksOf pfPartToTrackAssoc p).length +
        (showersOf pfPartToShowerAssoc p).length < 2 := by
      intro p hp
      by_contra hge
      exact hno ⟨p, hp, by omega⟩
    have := CollectTracksAndShowers.loop_collects pfPartToTrackAssoc pfPartToShowerAssoc particles
      [] [] hkeys hfew
    simpa [CollectTracksAndShowers] using this
  refine ⟨⟨?_, ?_⟩, ⟨?_, ?_⟩, hok⟩
  · rintro ⟨e, he⟩
    by_contra hno
    rw [hok hno] at he
    cases he
  · intro hmany
    obtain ⟨nT, nS, self, -, h⟩ := CollectTracksAndShowers.loop_throws pfPartToTrackAssoc
      pfPartToShowerAssoc particles [] [] hkeys hmany
    exact ⟨_, h⟩
  · rintro ⟨nT, nS, self, he⟩
    by_contra hno
    rw [hok hno] at he
    cases he
  · intro hmany
    obtain ⟨nT, nS, self, -, h⟩ := CollectTracksAndShowers.loop_throws pfPartToTrackAssoc
      pfPartToShowerAssoc particles [] [] hkeys hmany
    exact ⟨nT, nS, self, h⟩

end lar_pandora

namespace lar_pandora

theorem CollectTracksAndShowers_result_witness :
    (∀ p ∈ sampleFinalStates,
      p.key < sampleTrackAssoc.bColl.length ∧ p.key < sampleShowerAssoc.bColl.length) ∧
    (¬ ∃ p ∈ sampleFinalStates, 2 ≤ (tracksOf sampleTrackAssoc p).length +
        (showersOf sampleShowerAssoc p).length) ∧
    CollectTracksAndShowers sampleFinalStates sampleTrackAssoc sampleShowerAssoc [] [] =
      .ok ([⟨0, ⟨7⟩⟩], [⟨0, ⟨8⟩⟩]) :=
  ⟨by decide, by decide,
    (CollectTracksAndShowers_result sampleFinalStates sampleTrackAssoc sampleShowerAssoc
      (by decide)).2.2 (by decide)⟩

end lar_pandora

namespace phot

namespace PMTResponseAnalyzer

/-- The loop over the hit collection in `analyze` starts at `begin()` and stops at `begin()`:
for every non-empty collection it runs no iteration, so the row filled into the `PMTEvents` tree
has both counts zero and nothing is filled into the other trees. -/
theorem analyze_nonempty (toFloat_t : Float → Float) (engine : Nat → Float) (event : Int)
    (TheHitCollection : PMTHitCollection) (s : PMTResponseAnalyzer)
    (hne : TheHitCollection ≠ []) (hflag : s.fMakeEventsTree = true) :
    ∃ s', analyze toFloat_t engine event TheHitCollection s = some s' ∧
      s'.fTheEventTree = s.fTheEventTree ++ [⟨event, 0, 0⟩] ∧
      s'.fThePMTTree = s.fThePMTTree ∧
      s'.fThePhotonTreeAll = s.fThePhotonTreeAll ∧
      s'.fThePhotonTreeDetected = s.fThePhotonTreeDetected := by
  have hlen : TheHitCollection.length > 0 := List.length_pos.mpr hne
  simp [analyze, hits, hlen, hflag, eventRow]

/-- C8, on the code: for an event whose hit collection holds one PMT with two photons, the row
filled into the `PMTEvents` tree has `CountAll = 0` and `CountDetected = 0`, not the total of
two photons, and no row is filled into the `PMTs` and `AllPhotons` trees: the loop over the hit
collection runs from `begin()` while the iterator differs from `begin()`, that is, not at
all. -/
theorem analyze_event_row_ignores_hits (toFloat_t : Float → Float) :
    (([(3, [⟨1 / 1000000, 0⟩, ⟨1 / 1000000, 1⟩])] : PMTHitCollection).map
      (fun entry => entry.2.length)).sum = 2 ∧
    ((analyze toFloat_t (fun _ => 0) 7 [(3, [⟨1 / 1000000, 0⟩, ⟨1 / 1000000, 1⟩])]
        sampleAnalyzer).map
      (fun s => (s.fTheEventTree, s.fThePMTTree, s.fThePhotonTreeAll))) =
    some ([⟨7, 0, 0⟩], [], []) :=
  ⟨rfl, rfl⟩

end PMTResponseAnalyzer

end phot

namespace phot

namespace PMTResponseAnalyzer

theorem detectedCount_cons (toFloat_t : Float → Float) (engine : Nat → Float) (qe lo hi : Float) (start : Nat)
    (it : OnePhoton) (rest : PMTHit) :
    detectedCount toFloat_t engine qe lo hi start (it :: rest) =
      (if (decide (engine start ≤ qe) &&
          decide (toFloat_t ((2.0 * 3.142) * 0.000197 / it.MomentumT) > lo) &&
          decide (toFloat_t ((2.0 * 3.142) * 0.000197 / it.MomentumT) < hi)) = true then 1 else 0) +
        detectedCount toFloat_t engine qe lo hi (start + 1) rest := by
  simp only [detectedCount, List.enumFrom_cons, List.countP_cons]
  rw [Nat.add_comm]

theorem detectedCount_le (toFloat_t : Float → Float) (engine : Nat → Float) (qe lo hi : Float) (start : Nat) (TheHit : PMTHit) :
    detectedCount toFloat_t engine qe lo hi start TheHit ≤ TheHit.length := by
  have := List.countP_le_length (l := List.enumFrom start TheHit) (fun ip =>
      decide (engine ip.1 ≤ qe) &&
      decide (toFloat_t ((2.0 * 3.142) * 0.000197 / ip.2.MomentumT) > lo) &&
      decide (toFloat_t ((2.0 * 3.142) * 0.000197 / ip.2.MomentumT) < hi))
  simpa [detectedCount] using this

theorem photonsQuiet_spec (toFloat_t : Float → Float) (engine : Nat → Float) (TheHit : PMTHit) (s : PMTResponseAnalyzer) :
    (photonsQuiet toFloat_t engine TheHit s).fCountPMTAll = s.fCountPMTAll + TheHit.length ∧
    (photonsQuiet toFloat_t engine TheHit s).fCountPMTDetected = s.fCountPMTDetected +
      detectedCount toFloat_t engine s.fQE s.fWavelengthCutLow s.fWavelengthCutHigh s.drawn TheHit ∧
    (photonsQuiet toFloat_t engine TheHit s).fThePhotonTreeDetected.length =
      s.fThePhotonTreeDetected.length + (if s.fMakeDetectedPhotonsTree then
        detectedCount toFloat_t engine s.fQE s.fWavelengthCutLow s.fWavelengthCutHigh s.drawn TheHit
        else 0) ∧
    (photonsQuiet toFloat_t engine TheHit s).fThePhotonTreeAll.length =
      s.fThePhotonTreeAll.length + (if s.fMakeAllPhotonsTree then TheHit.length else 0) ∧
    (photonsQuiet toFloat_t engine TheHit s).drawn = s.drawn + TheHit.length ∧
    (photonsQuiet toFloat_t engine TheHit s).fMakePMTHitsTree = s.fMakePMTHitsTree ∧
    (photonsQuiet toFloat_t engine TheHit s).fCountEventAll = s.fCountEventAll ∧
    (photonsQuiet toFloat_t engine TheHit s).fCountEventDetected = s.fCountEventDetected := by
  induction TheHit generalizing s with
  | nil => simp [photonsQuiet, detectedCount]
  | cons it rest ih =>
    obtain ⟨v, mA, mD, mP, mE, qe, lo, hi, ev, wl, pid, tm, cA, cD, eA, eD, tA, tD, tP, tE, dr⟩ := s
    rw [detectedCount_cons]
    simp only [photonsQuiet, detects, photonRow]
    by_cases hdet : (decide (engine dr ≤ qe) &&
          decide (toFloat_t ((2.0 * 3.142) * 0.000197 / it.MomentumT) > lo) &&
          decide (toFloat_t ((2.0 * 3.142) * 0.000197 / it.MomentumT) < hi)) = true
    · cases mA <;> cases mD <;>
        simp [hdet, ih, Nat.add_comm, Nat.add_left_comm, Nat.add_assoc] <;> omega
    · cases mA <;> cases mD <;>
        simp [hdet, ih, Nat.add_comm, Nat.add_left_comm, Nat.add_assoc] <;> omega

theorem photonsVerbose_spec (toFloat_t : Float → Float) (engine : Nat → Float) (TheHit : PMTHit) (s : PMTResponseAnalyzer) :
    (photonsVerbose toFloat_t engine TheHit s).fCountPMTAll = s.fCountPMTAll + TheHit.length ∧
    (photonsVerbose toFloat_t engine TheHit s).fCountPMTDetected = s.fCountPMTDetected +
      detectedCount toFloat_t engine s.fQE s.fWavelengthCutLow s.fWavelengthCutHigh s.drawn TheHit ∧
    (photonsVerbose toFloat_t engine TheHit s).fThePhotonTreeDetected.length =
      s.fThePhotonTreeDetected.length + (if s.fMakeDetectedPhotonsTree then
        detectedCount toFloat_t engine s.fQE s.fWavelengthCutLow s.fWavelengthCutHigh s.drawn TheHit
        else 0) ∧
    (photonsVerbose toFloat_t engine TheHit s).fThePhotonTreeAll.length =
      s.fThePhotonTreeAll.length + (if s.fMakeAllPhotonsTree then TheHit.length else 0) ∧
    (photonsVerbose toFloat_t engine TheHit s).drawn = s.drawn + TheHit.length ∧
    (photonsVerbose toFloat_t engine TheHit s).fMakePMTHitsTree = s.fMakePMTHitsTree ∧
    (photonsVerbose toFloat_t engine TheHit s).fCountEventAll = s.fCountEventAll ∧
    (photonsVerbose toFloat_t engine TheHit s).fCountEventDetected = s.fCountEventDetected := by
  induction TheHit generalizing s with
  | nil => simp [photonsVerbose, detectedCount]
  | cons it rest ih =>
    obtain ⟨v, mA, mD, mP, mE, qe, lo, hi, ev, wl, pid, tm, cA, cD, eA, eD, tA, tD, tP, tE, dr⟩ := s
    rw [detectedCount_cons]
    simp only [photonsVerbose, detects, photonRow]
    by_cases hdet : (decide (engine dr ≤ qe) &&
          decide (toFloat_t ((2.0 * 3.142) * 0.000197 / it.MomentumT) > lo) &&
          decide (toFloat_t ((2.0 * 3.142) * 0.000197 / it.MomentumT) < hi)) = true
    · cases mA <;> cases mD <;>
        simp [hdet, ih, Nat.add_comm, Nat.add_left_comm, Nat.add_assoc] <;> omega
    · cases mA <;> cases mD <;>
        simp [hdet, ih, Nat.add_comm, Nat.add_left_comm, Nat.add_assoc] <;> omega

theorem hit_spec (toFloat_t : Float → Float) (engine : Nat → Float) (entry : Int × PMTHit) (s : PMTResponseAnalyzer) :
    (hit toFloat_t engine entry s).fCountPMTAll = entry.2.length ∧
    (hit toFloat_t engine entry s).fCountPMTDetected =
      detectedCount toFloat_t engine s.fQE s.fWavelengthCutLow s.fWavelengthCutHigh s.drawn entry.2 ∧
    (hit toFloat_t engine entry s).fThePhotonTreeDetected.length =
      s.fThePhotonTreeDetected.length + (if s.fMakeDetectedPhotonsTree then
        detectedCount toFloat_t engine s.fQE s.fWavelengthCutLow s.fWavelengthCutHigh s.drawn entry.2
        else 0) ∧
    (hit toFloat_t engine entry s).fCountEventAll = s.fCountEventAll + entry.2.length ∧
    (hit toFloat_t engine entry s).fCountEventDetected = s.fCountEventDetected +
      detectedCount toFloat_t engine s.fQE s.fWavelengthCutLow s.fWavelengthCutHigh s.drawn entry.2 := by
  obtain ⟨v, mA, mD, mP, mE, qe, lo, hi, ev, wl, pid, tm, cA, cD, eA, eD, tA, tD, tP, tE, dr⟩ := s
  obtain ⟨first, TheHit⟩ := entry
  have hq := photonsQuiet_spec toFloat_t engine TheHit
    ⟨v, mA, mD, mP, mE, qe, lo, hi, ev, wl, first, tm, 0, 0, eA, eD, tA, tD, tP, tE, dr⟩
  have hv := photonsVerbose_spec toFloat_t engine TheHit
    ⟨v, mA, mD, mP, mE, qe, lo, hi, ev, wl, first, tm, 0, 0, eA, eD, tA, tD, tP, tE, dr⟩
  simp only [Int.zero_add] at hq hv
  obtain ⟨hq1, hq2, hq3, -, -, hq6, hq7, hq8⟩ := hq
  obtain ⟨hv1, hv2, hv3, -, -, hv6, hv7, hv8⟩ := hv
  refine ⟨?_, ?_, ?_, ?_, ?_⟩
  · simp only [hit]
    split_ifs <;> simp_all
  · simp only [hit]
    split_ifs <;> simp_all
  · simp only [hit]
    split_ifs <;> simp_all
  · simp only [hit]
    split_ifs <;> simp_all
  · simp only [hit]
    split_ifs <;> simp_all

/-- Had the loop over the hit collection run to `end()`, the event counter would have grown by
the number of photons of all the hits from the iterator on: the loop body does the counting that
the header of the file describes. -/
theorem hits_to_end (toFloat_t : Float → Float) (engine : Nat → Float) (TheHitCollection : PMTHitCollection) (fuel it : Nat)
    (s : PMTResponseAnalyzer) (hit_le : it ≤ TheHitCollection.length)
    (hfuel : TheHitCollection.length - it < fuel) :
    ∃ s', hits toFloat_t engine TheHitCollection TheHitCollection.length fuel it s = some s' ∧
      s'.fCountEventAll = s.fCountEventAll +
        (((TheHitCollection.drop it).map (fun entry => entry.2.length)).sum : Nat) := by
  induction fuel generalizing it s with
  | zero => omega
  | succ fuel ih =>
    by_cases hend : it = TheHitCollection.length
    · refine ⟨s, ?_, ?_⟩
      · simp [hits, hend]
      · simp [hend]
    · have hlt : it < TheHitCollection.length := by omega
      obtain ⟨s', hrun, hcount⟩ := ih (it + 1) (hit toFloat_t engine TheHitCollection[it] s)
        (by omega) (by omega)
      refine ⟨s', ?_, ?_⟩
      · simp only [hits, ne_eq, hend, not_false_eq_true, if_true]
        rw [List.get?_eq_getElem?, List.getElem?_eq_getElem hlt]
        exact hrun
      · rw [hcount, (hit_spec toFloat_t engine TheHitCollection[it] s).2.2.2.1,
          List.drop_eq_getElem_cons hlt]
        simp only [List.map_cons, List.sum_cons, Nat.cast_add]
        omega

/-- C9: in both per-photon loops every photon raises `fCountPMTAll` by one and stores its
wavelength in `fWavelength`; it raises `fCountPMTDetected` (by one) exactly when its draw is at
most the quantum efficiency and its stored wavelength is strictly greater than
`WavelengthCutLow` and strictly less than `WavelengthCutHigh`, and then, when the
`DetectedPhotons` tree is enabled, one row is filled into it. So after the body of the loop over
the hit collection has processed a PMT hit, `fCountPMTAll` is the number of photons of the hit,
`fCountPMTDetected` is the number of them that pass the condition, and
`0 <= fCountPMTDetected <= fCountPMTAll`. The comparisons are those of IEEE doubles, for every
conversion `toFloat_t` of a `double` into the member `fWavelength`. -/
theorem hit_counts (toFloat_t : Float → Float) (engine : Nat → Float) (entry : Int × PMTHit)
    (s : PMTResponseAnalyzer) :
    (hit toFloat_t engine entry s).fCountPMTAll = entry.2.length ∧
    (hit toFloat_t engine entry s).fCountPMTDetected =
      detectedCount toFloat_t engine s.fQE s.fWavelengthCutLow s.fWavelengthCutHigh s.drawn
        entry.2 ∧
    0 ≤ (hit toFloat_t engine entry s).fCountPMTDetected ∧
    (hit toFloat_t engine entry s).fCountPMTDetected ≤
      (hit toFloat_t engine entry s).fCountPMTAll ∧
    (hit toFloat_t engine entry s).fThePhotonTreeDetected.length =
      s.fThePhotonTreeDetected.length + (if s.fMakeDetectedPhotonsTree then
        detectedCount toFloat_t engine s.fQE s.fWavelengthCutLow s.fWavelengthCutHigh s.drawn
          entry.2
        else 0) ∧
    (∀ it : OnePhoton,
      ((photonsQuiet toFloat_t engine [it] s).fCountPMTAll = s.fCountPMTAll + 1 ∧
        (photonsVerbose toFloat_t engine [it] s).fCountPMTAll = s.fCountPMTAll + 1 ∧
        (photonsQuiet toFloat_t engine [it] s).fWavelength =
          toFloat_t ((2.0 * 3.142) * 0.000197 / it.MomentumT) ∧
        (photonsVerbose toFloat_t engine [it] s).fWavelength =
          toFloat_t ((2.0 * 3.142) * 0.000197 / it.MomentumT)) ∧
      ((engine s.drawn ≤ s.fQE ∧
          toFloat_t ((2.0 * 3.142) * 0.000197 / it.MomentumT) > s.fWavelengthCutLow ∧
          toFloat_t ((2.0 * 3.142) * 0.000197 / it.MomentumT) < s.fWavelengthCutHigh) →
        (photonsQuiet toFloat_t engine [it] s).fCountPMTDetected = s.fCountPMTDetected + 1 ∧
        (photonsVerbose toFloat_t engine [it] s).fCountPMTDetected = s.fCountPMTDetected + 1 ∧
        (photonsQuiet toFloat_t engine [it] s).fThePhotonTreeDetected.length =
          s.fThePhotonTreeDetected.length + (if s.fMakeDetectedPhotonsTree then 1 else 0) ∧
        (photonsVerbose toFloat_t engine [it] s).fThePhotonTreeDetected.length =
          s.fThePhotonTreeDetected.length + (if s.fMakeDetectedPhotonsTree then 1 else 0)) ∧
      (¬ (engine s.drawn ≤ s.fQE ∧
          toFloat_t ((2.0 * 3.142) * 0.000197 / it.MomentumT) > s.fWavelengthCutLow ∧
          toFloat_t ((2.0 * 3.142) * 0.000197 / it.MomentumT) < s.fWavelengthCutHigh) →
        (photonsQuiet toFloat_t engine [it] s).fCountPMTDetected = s.fCountPMTDetected ∧
        (photonsVerbose toFloat_t engine [it] s).fCountPMTDetected = s.fCountPMTDetected ∧
        (photonsQuiet toFloat_t engine [it] s).fThePhotonTreeDetected =
          s.fThePhotonTreeDetected ∧
        (photonsVerbose toFloat_t engine [it] s).fThePhotonTreeDetected =
          s.fThePhotonTreeDetected)) := by
  have hle := detectedCount_le toFloat_t engine s.fQE s.fWavelengthCutLow s.fWavelengthCutHigh
    s.drawn entry.2
  obtain ⟨h1, h2, h3, -, -⟩ := hit_spec toFloat_t engine entry s
  obtain ⟨v, mA, mD, mP, mE, qe, lo, hi, ev, wl, pid, tm, cA, cD, eA, eD, tA, tD, tP, tE, dr⟩ := s
  refine ⟨h1, h2, ?_, ?_, h3, ?_⟩
  · rw [h2]; exact Int.ofNat_nonneg _
  · rw [h1, h2]; exact Int.ofNat_le.mpr hle
  · intro it
    by_cases hdet : (engine dr ≤ qe ∧
        toFloat_t ((2.0 * 3.142) * 0.000197 / it.MomentumT) > lo ∧
        toFloat_t ((2.0 * 3.142) * 0.000197 / it.MomentumT) < hi)
    · have hdet' : (engine dr ≤ qe ∧
          lo < toFloat_t ((2.0 * 3.142) * 0.000197 / it.MomentumT)) ∧
          toFloat_t ((2.0 * 3.142) * 0.000197 / it.MomentumT) < hi :=
        ⟨⟨hdet.1, hdet.2.1⟩, hdet.2.2⟩
      refine ⟨?_, fun _ => ?_, fun h => absurd hdet h⟩
      · cases mA <;> cases mD <;> simp [photonsQuiet, photonsVerbose, detects, hdet']
      · cases mA <;> cases mD <;> simp [photonsQuiet, photonsVerbose, detects, hdet']
    · have hdet' : ¬ ((engine dr ≤ qe ∧
          lo < toFloat_t ((2.0 * 3.142) * 0.000197 / it.MomentumT)) ∧
          toFloat_t ((2.0 * 3.142) * 0.000197 / it.MomentumT) < hi) :=
        fun h => hdet ⟨h.1.1, h.1.2, h.2⟩
      refine ⟨?_, fun h => absurd h hdet, fun _ => ?_⟩
      · cases mA <;> cases mD <;> simp [photonsQuiet, photonsVerbose, detects, hdet']
      · cases mA <;> cases mD <;> simp [photonsQuiet, photonsVerbose, detects, hdet']

end PMTResponseAnalyzer

end phot
